import Mathlib

/-!
Shallow embedding of the acmedns/legodns repository: the dnszone container
(zones, record sets, serial coalescing), the dnsserver responder (question
dispatch, answer synthesis, negative-answer authority, zone transfer) and
the ACME dns-01 driver.  Go strings are modelled as lists of characters,
Go maps as association lists, uint32 arithmetic as Nat with explicit mod.
-/

namespace AcmeDns

/-- Names (Go strings) are modelled as lists of characters. -/
abbrev Name := List Char

/-- Special node name "@" (dns.Apex). -/
def apexName : Name := ['@']

/-- Special node name "*" (dns.Wildcard). -/
def wildcardName : Name := ['*']

/-- Modulus of Go's uint32 arithmetic. -/
def u32Mod : Nat := 4294967296

/-- DNS record variants, a closed sum mirroring dns.RecordA, dns.RecordNS,
dns.RecordTXT and dns.RecordAAAA (record.go).  IP payloads are byte lists. -/
inductive Record where
  | A (value : List Nat) (ttl : Nat)
  | NS (value : Name) (ttl : Nat)
  | TXT (values : List Name) (ttl : Nat)
  | AAAA (value : List Nat) (ttl : Nat)
deriving DecidableEq, Repr

/-- Record type codes, matching the IANA assignments used in node.go. -/
def Record.typeCode : Record → Nat
  | .A _ _ => 1
  | .NS _ _ => 2
  | .TXT _ _ => 16
  | .AAAA _ _ => 28

/-- Empty predicate of a record (record.go: Empty methods). -/
def Record.isEmptyRec : Record → Bool
  | .A v _ => v.isEmpty
  | .NS v _ => v.isEmpty
  | .TXT vs _ => vs.isEmpty
  | .AAAA v _ => v.isEmpty

/-- A node's record set (dns.Records): a list of record variants. -/
abbrev Records := List Record

/-- Node map of a zone: association list mirroring Go's
map[string]dns.Records.  Keys are unique in any state Go can build. -/
abbrev NodeMap := List (Name × Records)

/-- Lookup in the node map (Go map indexing; missing key gives nil). -/
def lookupNode : NodeMap → Name → Option Records
  | [], _ => none
  | (k, v) :: rest, n => if k = n then some v else lookupNode rest n

/-- Go map assignment m[k] = v: replace the binding if present, else add it. -/
def setNode : NodeMap → Name → Records → NodeMap
  | [], n, rs => [(n, rs)]
  | (k, v) :: rest, n, rs =>
      if k = n then (n, rs) :: rest else (k, v) :: setNode rest n rs

/-- Go delete(m, k): drop the binding for the key. -/
def deleteNode : NodeMap → Name → NodeMap
  | [], _ => []
  | (k, v) :: rest, n =>
      if k = n then deleteNode rest n else (k, v) :: deleteNode rest n

/-- A zone: domain name, node map, and a serial managed by the container
(part_000, type Zone). -/
structure Zone where
  domain : Name
  nodes : NodeMap
  serial : Nat
deriving DecidableEq, Repr

/-- Zone.matchResource: apex on exact domain match, otherwise the dot-free
prefix when the name ends in "." + domain (part_000 lines 224-239). -/
def Zone.matchResource (z : Zone) (name : Name) : Option Name :=
  if z.domain = name then
    some apexName
  else if ('.' :: z.domain).isSuffixOf name then
    let pfx := name.take (name.length - 1 - z.domain.length)
    if pfx.contains '.' then none else some pfx
  else
    none

/-- Zone.resolveNode: exact node entry, else the wildcard for non-apex
nodes (part_000 lines 241-247).  The wildcard never applies to the apex. -/
def Zone.resolveNode (z : Zone) (node : Name) : Option Records :=
  match lookupNode z.nodes node with
  | some rs => some rs
  | none => if node = apexName then none else lookupNode z.nodes wildcardName

/-- A resolved node as handed to the responder (dns.Node): name plus
records.  An empty name indicates a nonexistent/unknown node. -/
structure DnsNode where
  name : Name
  records : Records
deriving DecidableEq, Repr

/-- Zone.transfer: apex first when present, then the concrete nodes in map
order, then the wildcard last when present (part_000 lines 249-276). -/
def Zone.transfer (z : Zone) : List DnsNode :=
  (match lookupNode z.nodes apexName with
   | some rs => [⟨apexName, rs⟩]
   | none => []) ++
  ((z.nodes.filter fun p => p.1 ≠ apexName ∧ p.1 ≠ wildcardName).map
    fun p => ⟨p.1, p.2⟩) ++
  (match lookupNode z.nodes wildcardName with
   | some rs => [⟨wildcardName, rs⟩]
   | none => [])

/-- Replace the first record of the same type, if any (the replacement loop
of Zone.modifyRecord, part_000 lines 287-292). -/
def replaceSameType : Records → Record → Option Records
  | [], _ => none
  | x :: xs, r =>
      if x.typeCode = r.typeCode then some (r :: xs)
      else match replaceSameType xs r with
           | some ys => some (x :: ys)
           | none => none

/-- Remove the first record of the given type, if any (the removal loop of
Zone.modifyRecord, part_000 lines 296-306). -/
def removeSameType : Records → Nat → Option Records
  | [], _ => none
  | x :: xs, t =>
      if x.typeCode = t then some xs
      else match removeSameType xs t with
           | some ys => some (x :: ys)
           | none => none

/-- Zone.modifyRecord (part_000 lines 278-308): a non-empty record replaces
the same-type record or is appended; an empty record removes the same-type
record, dropping the node when its record set becomes empty. -/
def Zone.modifyRecord (z : Zone) (node : Name) (r : Record) : Zone :=
  if !r.isEmptyRec then
    let rs := (lookupNode z.nodes node).getD []
    match replaceSameType rs r with
    | some rs2 => { z with nodes := setNode z.nodes node rs2 }
    | none => { z with nodes := setNode z.nodes node (rs ++ [r]) }
  else
    match lookupNode z.nodes node with
    | none => z
    | some rs =>
        match removeSameType rs r.typeCode with
        | none => z
        | some rs2 =>
            if rs2.length > 0 then { z with nodes := setNode z.nodes node rs2 }
            else { z with nodes := deleteNode z.nodes node }

/-- Container state: the zone list plus the coalescing state.  pending is
the set of zones registered with the open window (none when quiescent);
window numbers the broadcast signal of the current window, so that writers
that obtain the same number wait on the same channel. -/
structure CState where
  zones : List Zone
  pending : Option (List Nat)
  window : Nat
deriving DecidableEq, Repr

/-- TimeSerial (dns/dnszone/util.go lines 23-29): unix time minus the
serial epoch; values outside [1, 2^32-1] panic (modelled as none). -/
def TimeSerial (unix : Int) : Option Nat :=
  let n : Int := unix - 1500000000
  if n ≤ 0 ∨ n > 4294967295 then none else some n.toNat

/-- InitWithSerial (part_000 lines 78-86): assign the serial to every zone
and build a quiescent container. -/
def InitWithSerial (serial : Nat) (zones : List Zone) : CState :=
  { zones := zones.map fun z => { z with serial := serial },
    pending := none,
    window := 0 }

/-- Init (part_000 lines 73-75): InitWithSerial with a wall-clock serial;
none models the TimeSerial panic. -/
def Init (unix : Int) (zones : List Zone) : Option CState :=
  (TimeSerial unix).map fun s => InitWithSerial s zones

/-- Container.ResolveResource (part_000 lines 88-104) over the zone list:
the first matching zone supplies the node name, the (possibly absent)
record set, and its serial. -/
def resolveResource : List Zone → Name → DnsNode × Nat
  | [], _ => (⟨[], []⟩, 0)
  | z :: zs, name =>
      match z.matchResource name with
      | some node => (⟨node, (z.resolveNode node).getD []⟩, z.serial)
      | none => resolveResource zs name

/-- Container.TransferZone (part_000 lines 130-143): exact domain match;
none models the nil slice returned when no zone has the domain. -/
def transferZone : List Zone → Name → Option (List DnsNode) × Nat
  | [], _ => (none, 0)
  | z :: zs, name =>
      if z.domain = name then (some z.transfer, z.serial)
      else transferZone zs name

/-- Index of the first zone with the given domain (the lookup loop of
Container.ModifyRecord, part_000 lines 155-160). -/
def findZoneIdx : List Zone → Name → Option Nat
  | [], _ => none
  | z :: zs, name =>
      if z.domain = name then some 0
      else (findZoneIdx zs name).map (· + 1)

/-- Register a zone with the current window (Container.scheduleChange,
part_000 lines 189-198): Go map insertion, hence idempotent. -/
def registerZone (p : Option (List Nat)) (i : Nat) : List Nat :=
  let l := p.getD []
  if i ∈ l then l else l ++ [i]

/-- Errors returned by the container; existenceError has NotExist() true
(part_000 of the error file, lines 16-32). -/
inductive ZoneErr where
  | zoneUnknown (name : Name)
deriving DecidableEq, Repr

/-- NotExist attribute of the container's errors. -/
def ZoneErr.notExist : ZoneErr → Bool
  | .zoneUnknown _ => true

/-- Result of Container.ModifyRecord: the post state, the error if any, and
the readiness signal handed to the waiting writer (none on error). -/
structure ModifyResult where
  state : CState
  err : Option ZoneErr
  signal : Option Nat
deriving DecidableEq, Repr

/-- Container.ModifyRecord (part_000 lines 150-186): locate the zone by
exact domain; if absent fail with a not-exist error; otherwise modify the
zone immediately (without touching the serial) and register it with the
current coalescing window, receiving the window's signal. -/
def modifyRecord (s : CState) (zoneName node : Name) (r : Record) :
    ModifyResult :=
  match findZoneIdx s.zones zoneName with
  | some i =>
      { state :=
          { zones := s.zones.modify (fun z => z.modifyRecord node r) i,
            pending := some (registerZone s.pending i),
            window := s.window },
        err := none,
        signal := some s.window }
  | none => { state := s, err := some (.zoneUnknown zoneName), signal := none }

/-- Serial increment of the registered zones, walking the zone list with
its index (the range loop of applyChanges). -/
def bumpZones (pending : List Nat) : Nat → List Zone → List Zone
  | _, [] => []
  | i, z :: zs =>
      (if i ∈ pending then { z with serial := (z.serial + 1) % u32Mod } else z)
        :: bumpZones pending (i + 1) zs

/-- Container.applyChanges (part_000 lines 200-211): increment the serial
of every registered zone once (uint32 wrap), close the signal, and clear
the coalescing state. -/
def applyChanges (s : CState) : CState :=
  { zones := bumpZones (s.pending.getD []) 0 s.zones,
    pending := none,
    window := s.window + 1 }

/-- Operations that drive the container state between reads: a record
modification or the firing of the coalescing apply-callback. -/
inductive Op where
  | modify (zoneName node : Name) (r : Record)
  | applyCb
deriving DecidableEq, Repr

/-- One container step. -/
def stepOp (s : CState) : Op → CState
  | .modify zoneName node r => (modifyRecord s zoneName node r).state
  | .applyCb => applyChanges s

/-- Run a sequence of container operations. -/
def runOps (s : CState) : List Op → CState
  | [] => s
  | op :: rest => runOps (stepOp s op) rest

/-- Serial of zone i, or 0 when out of range. -/
def serialAt (s : CState) (i : Nat) : Nat :=
  ((s.zones[i]?).map Zone.serial).getD 0

/-- Number of apply-callback firings in an operation sequence. -/
def applyCount : List Op → Nat
  | [] => 0
  | .applyCb :: rest => applyCount rest + 1
  | .modify _ _ _ :: rest => applyCount rest

/-! DNS responder (dns/dnsserver/server.go). -/

/-- miekg/dns qtype and class constants used by the responder. -/
def typeA : Nat := 1
def typeNS : Nat := 2
def typeSOA : Nat := 6
def typeTXT : Nat := 16
def typeAAAA : Nat := 28
def typeIXFR : Nat := 251
def typeAXFR : Nat := 252
def typeANY : Nat := 255
def classIN : Nat := 1
def rcodeSuccess : Nat := 0
def rcodeNotImplemented : Nat := 4
def rcodeNameError : Nat := 3

/-- Serial number used for negative answers (server.go defaultSerial). -/
def defaultSerial : Nat := 1

/-- A DNS question (one entry of the question section). -/
structure Question where
  qname : Name
  qtype : Nat
  qclass : Nat
deriving DecidableEq, Repr

/-- Resource records the responder emits (miekg/dns SOA, NS, A, AAAA, TXT
messages restricted to the fields the code fills in). -/
inductive RR where
  | soa (owner : Name) (ttl : Nat) (ns mbox : Name)
        (serial refresh retryIv expire minttl : Nat)
  | ns (owner : Name) (ttl : Nat) (value : Name)
  | a (owner : Name) (ttl : Nat) (value : List Nat)
  | aaaa (owner : Name) (ttl : Nat) (value : List Nat)
  | txt (owner : Name) (ttl : Nat) (values : List Name)
deriving DecidableEq, Repr

/-- SOA configuration after init (dns/dnsserver/soa.go): authority fields
with defaults already filled in. -/
structure SOA where
  ns : Name
  mbox : Name
  refresh : Nat
  retryIv : Nat
  expire : Nat
  minttl : Nat
  ttl : Nat
deriving DecidableEq, Repr

/-- SOA.authority(): a non-empty NS switches on authoritative mode. -/
def SOA.authority (soa : SOA) : Bool := !soa.ns.isEmpty

/-- A reply message: rcode, authoritative flag, answer section, authority
section (replyMsg.Ns). -/
structure Reply where
  rcode : Nat
  authoritative : Bool
  answers : List RR
  authority : List RR
deriving DecidableEq, Repr

/-- replyType (server.go lines 304-312): AXFR, IXFR and ANY admit every
record type, otherwise only the matching type passes. -/
def replyType (qtype recordType : Nat) : Bool :=
  qtype = typeAXFR ∨ qtype = typeIXFR ∨ qtype = typeANY ∨ qtype = recordType

/-- transferReq (server.go lines 315-323). -/
def transferReq (qtype : Nat) : Bool :=
  qtype = typeAXFR ∨ qtype = typeIXFR

/-- negativeAnswer (server.go lines 325-327). -/
def negativeAnswer (answers : List RR) (rcode : Nat) : Bool :=
  rcode = rcodeNameError ∨ answers.isEmpty

/-- soaAnswer (server.go lines 329-349): serial 0 is replaced by the
default 1; note the code fills Minttl from soa.TTL. -/
def soaAnswer (q : Question) (soa : SOA) (serial : Nat) : RR :=
  .soa q.qname soa.ttl soa.ns soa.mbox
    (if serial = 0 then defaultSerial else serial)
    soa.refresh soa.retryIv soa.expire soa.ttl

/-- Per-rune lowercasing of a name (strings.ToLower as used by handle). -/
def lowerName (n : Name) : Name := n.map Char.toLower

/-- The resolver consumed by the responder (the Resolver interface):
ResolveRecords gives (node, records, serial), TransferZone gives the node
list (none when the zone is unknown) and the serial. -/
structure Resolver where
  resolveRecords : Name → Nat → Name × Records × Nat
  transferZone : Name → Option (List DnsNode) × Nat

/-- Answer records for one record of a node, with the owner name already
computed (the per-record switch of handle, server.go lines 220-283). -/
def recordAnswers (qtype : Nat) (owner : Name) : Record → List RR
  | .NS v ttl => if replyType qtype typeNS then [.ns owner ttl v] else []
  | .A v ttl => if replyType qtype typeA then [.a owner ttl v] else []
  | .AAAA v ttl => if replyType qtype typeAAAA then [.aaaa owner ttl v] else []
  | .TXT vs ttl => if replyType qtype typeTXT then [.txt owner ttl vs] else []

/-- Owner name of a node's answers (server.go lines 202-218): apex keeps
the question name, the wildcard is prefixed with "*.", and a concrete node
is prefixed to the question name only for apex-bearing transfers. -/
def ownerName (qname : Name) (hasApex : Bool) (node : Name) : Name :=
  if node = apexName then qname
  else if node = wildcardName then '*' :: '.' :: qname
  else if hasApex then node ++ '.' :: qname
  else qname

/-- Answer records of one resolved node (handle's per-node loop). -/
def nodeAnswers (q : Question) (hasApex : Bool) (node : DnsNode) : List RR :=
  node.records.flatMap (recordAnswers q.qtype (ownerName q.qname hasApex node.name))

/-- handle (server.go lines 115-300) as a function from the question
section to the reply.  Early NOTIMP exits leave the zero-valued message
(authoritative false, empty sections). -/
def handle (questions : List Question) (resolver : Resolver) (soa : SOA) :
    Reply :=
  match questions with
  | [q] =>
      if q.qclass ≠ classIN then
        { rcode := rcodeNotImplemented, authoritative := false,
          answers := [], authority := [] }
      else
        let auth := soa.authority
        let lname := lowerName q.qname
        let dispatch : Option (List DnsNode) × Nat × Bool :=
          if transferReq q.qtype then
            if auth then
              let tr := resolver.transferZone lname
              (tr.1, tr.2, true)
            else (none, 0, false)
          else
            let res := resolver.resolveRecords lname q.qtype
            if res.1.isEmpty then (none, res.2.2, false)
            else (some [⟨res.1, res.2.1⟩], res.2.2, res.1 = apexName)
        let serial := dispatch.2.1
        let hasApex := dispatch.2.2
        match dispatch.1 with
        | some nodes =>
            let apexBlock :=
              if hasApex ∧ auth then
                (if replyType q.qtype typeSOA then [soaAnswer q soa serial]
                 else []) ++
                (if replyType q.qtype typeNS then
                   [RR.ns q.qname soa.ttl soa.ns]
                 else [])
              else []
            let answers :=
              apexBlock ++ nodes.flatMap (nodeAnswers q hasApex) ++
              (if transferReq q.qtype then [soaAnswer q soa serial] else [])
            { rcode := rcodeSuccess, authoritative := auth,
              answers := answers,
              authority :=
                if negativeAnswer answers rcodeSuccess ∧ auth then
                  [soaAnswer q soa serial]
                else [] }
        | none =>
            { rcode := rcodeNameError, authoritative := auth,
              answers := [],
              authority :=
                if negativeAnswer [] rcodeNameError ∧ auth then
                  [soaAnswer q soa serial]
                else [] }
  | _ =>
      { rcode := rcodeNotImplemented, authoritative := false,
        answers := [], authority := [] }

/-! ACME dns-01 driver (acmedns.go). -/

/-- The challenge type the driver supports (acmedns.go challengeType). -/
def dns01Type : Name := "dns-01".data

/-- Node the TXT challenge record is installed under (challengeNode). -/
def challengeNodeName : Name := "_acme-challenge".data

/-- An ACME challenge: its type string and token. -/
structure Challenge where
  ctype : Name
  token : Name
deriving DecidableEq, Repr

/-- Errors of the driver: the two synthetic messages plus pass-through
collaborator errors (identified by an opaque code). -/
inductive AcmeErr where
  | unsupportedChallengeTypes
  | noSupportedCombos
  | client (code : Nat)
deriving DecidableEq, Repr

/-- One ModifyTXTRecord call issued to the DNS capability. -/
structure DnsWrite where
  zone : Name
  node : Name
  values : List Name
  ttl : Nat
deriving DecidableEq, Repr

/-- The collaborators of acquireAuthorization: the authorization's
challenges and combinations, and the ACME client's effects as oracles. -/
structure AcmeEnv where
  challenges : List Challenge
  combos : List (List Nat)
  dns01Record : Name → Except Nat Name
  modifyTXT : Name → Name → List Name → Nat → Option Nat
  accept : Challenge → Option Nat
  waitAuth : Except AcmeErr Nat

/-- fulfillChallenge (acmedns.go lines 96-107): reject non-dns-01 types
before any DNS call; otherwise derive the TXT value and install it.  The
second component logs the ModifyTXTRecord calls made. -/
def fulfillChallenge (env : AcmeEnv) (zone : Name) (chal : Challenge) :
    Option AcmeErr × List DnsWrite :=
  if chal.ctype ≠ dns01Type then
    (some .unsupportedChallengeTypes, [])
  else
    match env.dns01Record chal.token with
    | .error e => (some (.client e), [])
    | .ok value =>
        ((env.modifyTXT zone challengeNodeName [value] 1).map .client,
         [⟨zone, challengeNodeName, [value], 1⟩])

/-- The combination loop of acquireAuthorization (acmedns.go lines 70-84):
only combinations of length one with an in-range index are attempted; err
holds the last inner error; the loop stops at the first acceptance. -/
def acquireLoop (env : AcmeEnv) (zone : Name) :
    List (List Nat) → Option AcmeErr → List DnsWrite →
    Option Challenge × Option AcmeErr × List DnsWrite
  | [], err, writes => (none, err, writes)
  | combo :: rest, err, writes =>
      match combo with
      | [i] =>
          match env.challenges.get? i with
          | some chal =>
              let f := fulfillChallenge env zone chal
              match f.1 with
              | some e => acquireLoop env zone rest (some e) (writes ++ f.2)
              | none =>
                  match env.accept chal with
                  | some e =>
                      acquireLoop env zone rest (some (.client e))
                        (writes ++ f.2)
                  | none => (some chal, none, writes ++ f.2)
          | none => acquireLoop env zone rest err writes
      | _ => acquireLoop env zone rest err writes

/-- acquireAuthorization (acmedns.go lines 55-94): an empty combination
list means one combination of all challenges; when nothing was accepted the
last inner error is returned, or the synthetic "no supported challenge
combinations" error when there was none; on acceptance the outcome of
WaitAuthorization is returned. -/
def acquireAuthorization (env : AcmeEnv) (zone : Name) :
    Except AcmeErr Nat × List DnsWrite :=
  let combos :=
    if env.combos.isEmpty then [List.range env.challenges.length]
    else env.combos
  let r := acquireLoop env zone combos none []
  match r.1 with
  | none => (.error ((r.2.1).getD .noSupportedCombos), r.2.2)
  | some _ => (env.waitAuth, r.2.2)

/-! Derived notions used to state the claims. -/

/-- First record of the given type code in a record set. -/
def typeLookup (rs : Records) (t : Nat) : Option Record :=
  rs.find? fun r => r.typeCode = t

/-- The first zone matching a name, with the matched node, following the
iteration order of Container.ResolveResource. -/
def firstMatch : List Zone → Name → Option (Zone × Name)
  | [], _ => none
  | z :: zs, name =>
      match z.matchResource name with
      | some node => some (z, node)
      | none => firstMatch zs name

/-- The serial the responder obtains for a question (the serial variable of
handle after dispatch). -/
def questionSerial (q : Question) (rv : Resolver) (soa : SOA) : Nat :=
  if transferReq q.qtype then
    if soa.authority then (rv.transferZone (lowerName q.qname)).2 else 0
  else (rv.resolveRecords (lowerName q.qname) q.qtype).2.2

/-- Serial field of an SOA resource record, none for the other types. -/
def RR.soaSerial : RR → Option Nat
  | .soa _ _ _ _ s _ _ _ _ => some s
  | _ => none

/-- Owner name of a resource record. -/
def RR.owner : RR → Name
  | .soa o _ _ _ _ _ _ _ _ => o
  | .ns o _ _ => o
  | .a o _ _ => o
  | .aaaa o _ _ => o
  | .txt o _ _ => o

/-- Lowercase the owner name of a resource record. -/
def lowerRR : RR → RR
  | .soa o ttl ns mb s rf rt ex mi => .soa (lowerName o) ttl ns mb s rf rt ex mi
  | .ns o ttl v => .ns (lowerName o) ttl v
  | .a o ttl v => .a (lowerName o) ttl v
  | .aaaa o ttl v => .aaaa (lowerName o) ttl v
  | .txt o ttl vs => .txt (lowerName o) ttl vs

/-- A reply up to the case of its owner names (DNS name comparison is
case-insensitive). -/
def lowerReply (r : Reply) : Reply :=
  { r with answers := r.answers.map lowerRR, authority := r.authority.map lowerRR }

/-- At most one record per type code in a record set. -/
def recordsTypeNodup (rs : Records) : Prop :=
  (rs.map Record.typeCode).Nodup

instance (rs : Records) : Decidable (recordsTypeNodup rs) := by
  unfold recordsTypeNodup; infer_instance

/-- Every node of every zone has at most one record per type code. -/
def stateInv (s : CState) : Prop :=
  ∀ z ∈ s.zones, ∀ p ∈ z.nodes, recordsTypeNodup p.2

instance (s : CState) : Decidable (stateInv s) := by
  unfold stateInv; infer_instance

/-! Concrete fixtures used by counterexamples and witnesses. -/

/-- Zone example.org. with only an apex A record (scenario S2 setting). -/
def zoneS2 : Zone :=
  { domain := "example.org.".data,
    nodes := [(apexName, [Record.A [93, 184, 216, 34] 1])],
    serial := 7 }

/-- Zone example.org. with apex, www and wildcard nodes (scenario S5). -/
def zoneS5 : Zone :=
  { domain := "example.org.".data,
    nodes := [(apexName, [Record.A [93, 184, 216, 34] 1]),
              ("www".data, [Record.A [1, 2, 3, 4] 5]),
              (wildcardName, [Record.TXT [['h', 'i']] 5])],
    serial := 7 }

/-- An authoritative SOA configuration after init. -/
def soaFix : SOA :=
  { ns := "ns.example.org.".data, mbox := "admin.example.org.".data,
    refresh := 7200, retryIv := 900, expire := 1209600,
    minttl := 3600, ttl := 3600 }

/-- Resolver backed by the container holding zoneS2. -/
def resolverS2 : Resolver :=
  { resolveRecords := fun n _ =>
      let r := resolveResource [zoneS2] n
      (r.1.name, r.1.records, r.2),
    transferZone := fun n => transferZone [zoneS2] n }

/-- Resolver backed by the container holding zoneS5. -/
def resolverS5 : Resolver :=
  { resolveRecords := fun n _ =>
      let r := resolveResource [zoneS5] n
      (r.1.name, r.1.records, r.2),
    transferZone := fun n => transferZone [zoneS5] n }

/-- A container state with zone 0 registered in an open window. -/
def stateW : CState :=
  { zones := [{ zoneS2 with serial := 5 }], pending := some [0], window := 0 }

/-- ACME environment whose only challenge is http-01 (scenario S6 tail). -/
def envHttp01 : AcmeEnv :=
  { challenges := [⟨"http-01".data, "tok".data⟩],
    combos := [[0]],
    dns01Record := fun _ => .ok "value".data,
    modifyTXT := fun _ _ _ _ => none,
    accept := fun _ => none,
    waitAuth := .ok 0 }

/-! Helper lemmas. -/

theorem modifyRecord_serial_eq (z : Zone) (n : Name) (r : Record) :
    (z.modifyRecord n r).serial = z.serial := by
  simp only [Zone.modifyRecord]
  split
  · split <;> rfl
  · split
    · rfl
    · split
      · rfl
      · split <;> rfl

theorem modifyRecord_domain_eq (z : Zone) (n : Name) (r : Record) :
    (z.modifyRecord n r).domain = z.domain := by
  simp only [Zone.modifyRecord]
  split
  · split <;> rfl
  · split
    · rfl
    · split
      · rfl
      · split <;> rfl

theorem findZoneIdx_none_iff (zs : List Zone) (name : Name) :
    findZoneIdx zs name = none ↔ ∀ z ∈ zs, z.domain ≠ name := by
  induction zs with
  | nil => simp [findZoneIdx]
  | cons z rest ih =>
      by_cases h : z.domain = name
      · simp [findZoneIdx, h]
      · simp [findZoneIdx, h, Option.map_eq_none', ih]

theorem findZoneIdx_some (zs : List Zone) (name : Name) (i : Nat)
    (h : findZoneIdx zs name = some i) :
    ∃ z, zs[i]? = some z ∧ z.domain = name := by
  induction zs generalizing i with
  | nil => simp [findZoneIdx] at h
  | cons z rest ih =>
      by_cases hd : z.domain = name
      · simp [findZoneIdx, hd] at h
        subst h
        exact ⟨z, by simp, hd⟩
      · simp [findZoneIdx, hd] at h
        obtain ⟨j, hj, rfl⟩ := h
        obtain ⟨w, hw, hwd⟩ := ih j hj
        exact ⟨w, by simpa using hw, hwd⟩

/-! Claim C4: initial serial from the wall clock. -/

/-- C4: a zone's initial serial is the wall-clock value
max(1, unix − 1 500 000 000): construction succeeds exactly when the
difference lies in [1, 2^32−1] (otherwise TimeSerial panics, modelled by
none), and on success every zone receives that value. -/
theorem c4_initial_serial :
    (∀ (u : Int) (s : Nat), TimeSerial u = some s →
        (s : Int) = max 1 (u - 1500000000) ∧ 1 ≤ s ∧ s ≤ 4294967295) ∧
    (∀ u : Int, TimeSerial u = none ↔
        (u - 1500000000 < 1 ∨ u - 1500000000 > 4294967295)) ∧
    (∀ (u : Int) (zs : List Zone) (st : CState), Init u zs = some st →
        ∀ z ∈ st.zones, (z.serial : Int) = max 1 (u - 1500000000)) := by
  have hts : ∀ (u : Int) (s : Nat), TimeSerial u = some s →
      (s : Int) = max 1 (u - 1500000000) ∧ 1 ≤ s ∧ s ≤ 4294967295 := by
    intro u s h
    simp only [TimeSerial] at h
    split at h
    · simp at h
    · next hc =>
        push_neg at hc
        simp only [Option.some.injEq] at h
        subst h
        have h1 : (1 : Int) ≤ u - 1500000000 := hc.1
        constructor
        · rw [max_eq_right h1]
          omega
        · omega
  refine ⟨hts, ?_, ?_⟩
  · intro u
    simp only [TimeSerial]
    constructor
    · intro h
      split at h
      · next hc => omega
      · simp at h
    · intro h
      split
      · rfl
      · next hc => omega
  · intro u zs st h z hz
    unfold Init at h
    cases hts' : TimeSerial u with
    | none => rw [hts', Option.map_none'] at h; exact absurd h (by simp)
    | some s =>
        rw [hts', Option.map_some'] at h
        simp only [Option.some.injEq] at h
        subst h
        simp only [InitWithSerial, List.mem_map] at hz
        obtain ⟨z0, _, rfl⟩ := hz
        exact (hts u s hts').1

/-- C4 witness: at unix time 1 500 000 007 the serial is 7 and within
bounds. -/
theorem c4_initial_serial_witness :
    ((7 : Nat) : Int) = max 1 ((1500000007 : Int) - 1500000000) ∧
    1 ≤ (7 : Nat) ∧ (7 : Nat) ≤ 4294967295 :=
  c4_initial_serial.1 1500000007 7 (by decide)

/-! Claim C5: ACME challenge-combination selection. -/

theorem acquireLoop_skip_all (env : AcmeEnv) (zone : Name) :
    ∀ (combos : List (List Nat)) (err : Option AcmeErr)
      (writes : List DnsWrite),
      (∀ c ∈ combos, c.length ≠ 1) →
      acquireLoop env zone combos err writes = (none, err, writes) := by
  intro combos
  induction combos with
  | nil => intro err writes _; rfl
  | cons c rest ih =>
      intro err writes h
      have hc : c.length ≠ 1 := h c (by simp)
      have hr : ∀ x ∈ rest, x.length ≠ 1 := fun x hx => h x (by simp [hx])
      match c, hc with
      | [], _ => simpa [acquireLoop] using ih err writes hr
      | a :: b :: t, _ => simpa [acquireLoop] using ih err writes hr
      | [a], hc => exact absurd rfl hc

/-- C5: only combinations with exactly one challenge are considered and the
single challenge must be dns-01: any other type yields the synthetic
"unsupported challenge types" error with no ModifyTXTRecord call; when no
combination is accepted the driver fails with "no supported challenge
combinations" unless an inner error occurred, in which case the last inner
error is returned. -/
theorem c5_challenge_selection :
    (∀ (env : AcmeEnv) (zone : Name) (chal : Challenge),
        chal.ctype ≠ dns01Type →
        fulfillChallenge env zone chal = (some .unsupportedChallengeTypes, [])) ∧
    (∀ (env : AcmeEnv) (zone : Name) (combo : List Nat)
        (rest : List (List Nat)) (err : Option AcmeErr)
        (writes : List DnsWrite),
        combo.length ≠ 1 →
        acquireLoop env zone (combo :: rest) err writes =
          acquireLoop env zone rest err writes) ∧
    (∀ (env : AcmeEnv) (zone : Name),
        env.combos ≠ [] →
        (∀ c ∈ env.combos, c.length ≠ 1) →
        acquireAuthorization env zone = (.error .noSupportedCombos, [])) ∧
    (∀ (env : AcmeEnv) (zone : Name) (e : AcmeErr) (ws : List DnsWrite),
        acquireLoop env zone
            (if env.combos.isEmpty then [List.range env.challenges.length]
             else env.combos) none [] = (none, some e, ws) →
        acquireAuthorization env zone = (.error e, ws)) := by
  refine ⟨?_, ?_, ?_, ?_⟩
  · intro env zone chal h
    unfold fulfillChallenge
    rw [if_pos h]
  · intro env zone combo rest err writes h
    match combo, h with
    | [], _ => rfl
    | a :: b :: t, _ => rfl
    | [a], h => exact absurd rfl h
  · intro env zone hne h
    have hemp : env.combos.isEmpty = false := by
      cases hc : env.combos with
      | nil => exact absurd hc hne
      | cons a t => rfl
    unfold acquireAuthorization
    rw [hemp]
    simp only [Bool.false_eq_true, if_false]
    rw [acquireLoop_skip_all env zone env.combos none [] h]
    rfl
  · intro env zone e ws h
    unfold acquireAuthorization
    simp only [h]
    rfl

/-- C5 witness: an authorization whose only challenge is http-01 in a
single-challenge combination produces the "unsupported challenge types"
error and no DNS write. -/
theorem c5_challenge_selection_witness :
    fulfillChallenge envHttp01 "example.org.".data
      ⟨"http-01".data, "tok".data⟩ = (some .unsupportedChallengeTypes, []) ∧
    acquireAuthorization envHttp01 "example.org.".data =
      (.error .unsupportedChallengeTypes, []) :=
  ⟨c5_challenge_selection.1 envHttp01 "example.org.".data
      ⟨"http-01".data, "tok".data⟩ (by decide),
   c5_challenge_selection.2.2.2 envHttp01 "example.org.".data
      .unsupportedChallengeTypes [] (by decide)⟩

/-! Claim C3: zone lookup of the modify path. -/

theorem removeSameType_eq_none (rs : Records) (t : Nat) :
    removeSameType rs t = none ↔ ∀ x ∈ rs, x.typeCode ≠ t := by
  induction rs with
  | nil => simp [removeSameType]
  | cons x xs ih =>
      by_cases h : x.typeCode = t
      · simp [removeSameType, h]
      · simp only [removeSameType, if_neg h]
        cases hr : removeSameType xs t with
        | some ys => simp [hr, Option.map_eq_none'] at ih ⊢; tauto
        | none => simp [hr] at ih ⊢; tauto

theorem modifyRecord_state_zones (s : CState) (zn n : Name) (r : Record)
    (i : Nat) (h : findZoneIdx s.zones zn = some i) :
    (modifyRecord s zn n r).state.zones =
      s.zones.modify (fun z => z.modifyRecord n r) i ∧
    (modifyRecord s zn n r).state.pending =
      some (registerZone s.pending i) ∧
    (modifyRecord s zn n r).err = none ∧
    (modifyRecord s zn n r).signal = some s.window := by
  refine ⟨?_, ?_, ?_, ?_⟩ <;> simp only [modifyRecord, h]

/-- C3: modify-txt locates the target zone by exact domain equality: when
no zone carries the domain it fails with an error whose NotExist() is true
and changes nothing; when the zone exists the record is applied to that
zone's node map in the returned state while every zone's serial stays
unchanged. -/
theorem c3_modify_zone_lookup :
    (∀ (zs : List Zone) (name : Name),
        findZoneIdx zs name = none ↔ ∀ z ∈ zs, z.domain ≠ name) ∧
    (∀ (s : CState) (zn n : Name) (r : Record),
        (∀ z ∈ s.zones, z.domain ≠ zn) →
        modifyRecord s zn n r = ⟨s, some (.zoneUnknown zn), none⟩ ∧
        (ZoneErr.zoneUnknown zn).notExist = true) ∧
    (∀ (s : CState) (zn n : Name) (r : Record) (i : Nat),
        findZoneIdx s.zones zn = some i →
        (modifyRecord s zn n r).err = none ∧
        ((modifyRecord s zn n r).state.zones[i]? =
          (s.zones[i]?).map fun z => z.modifyRecord n r) ∧
        (∀ j, j ≠ i →
          (modifyRecord s zn n r).state.zones[j]? = s.zones[j]?) ∧
        (∀ j, serialAt (modifyRecord s zn n r).state j = serialAt s j)) := by
  refine ⟨findZoneIdx_none_iff, ?_, ?_⟩
  · intro s zn n r h
    have hn : findZoneIdx s.zones zn = none := (findZoneIdx_none_iff _ _).mpr h
    constructor
    · simp only [modifyRecord, hn]
    · rfl
  · intro s zn n r i h
    obtain ⟨hz, _, herr, _⟩ := modifyRecord_state_zones s zn n r i h
    refine ⟨herr, ?_, ?_, ?_⟩
    · rw [hz, List.getElem?_modify_eq]
      rfl
    · intro j hj
      rw [hz, List.getElem?_modify_ne _ _ (Ne.symm hj)]
    · intro j
      by_cases hj : j = i
      · subst hj
        simp only [serialAt, hz, List.getElem?_modify_eq]
        cases s.zones[j]? with
        | none => rfl
        | some z => simp [modifyRecord_serial_eq]
      · simp only [serialAt, hz, List.getElem?_modify_ne _ _ (Ne.symm hj)]

/-- C3 witness: modifying a TXT record of an unknown zone fails with a
NotExist error on a concrete container, and on the known zone the serials
stay untouched. -/
theorem c3_modify_zone_lookup_witness :
    (modifyRecord (InitWithSerial 5 [zoneS2]) "example.net.".data
        "_acme-challenge".data (Record.TXT [['a']] 1) =
      ⟨InitWithSerial 5 [zoneS2],
       some (.zoneUnknown "example.net.".data), none⟩) ∧
    (∀ j, serialAt
        (modifyRecord (InitWithSerial 5 [zoneS2]) "example.org.".data
          "_acme-challenge".data (Record.TXT [['a']] 1)).state j =
      serialAt (InitWithSerial 5 [zoneS2]) j) :=
  ⟨(c3_modify_zone_lookup.2.1 (InitWithSerial 5 [zoneS2]) "example.net.".data
      "_acme-challenge".data (Record.TXT [['a']] 1) (by decide)).1,
   (c3_modify_zone_lookup.2.2 (InitWithSerial 5 [zoneS2]) "example.org.".data
      "_acme-challenge".data (Record.TXT [['a']] 1) 0 (by decide)).2.2.2⟩

/-! Claim C10: empty-record modification of a node without the type. -/

theorem bumpZones_getElem? (p : List Nat) :
    ∀ (k : Nat) (zs : List Zone) (j : Nat),
      (bumpZones p k zs)[j]? =
        (zs[j]?).map fun z =>
          if (k + j) ∈ p then { z with serial := (z.serial + 1) % u32Mod }
          else z := by
  intro k zs
  induction zs generalizing k with
  | nil => intro j; simp [bumpZones]
  | cons z rest ih =>
      intro j
      cases j with
      | zero => simp [bumpZones]
      | succ j =>
          simp only [bumpZones, List.getElem?_cons_succ]
          rw [ih (k + 1) j]
          have : k + 1 + j = k + (j + 1) := by omega
          rw [this]

theorem registerZone_mem (p : Option (List Nat)) (i : Nat) :
    i ∈ registerZone p i := by
  simp only [registerZone]
  split
  · assumption
  · simp

/-- C10: applying an empty record to a node that has no record of that
type leaves the zone's node map entirely unchanged (no node is created,
nothing is removed), yet the zone is still registered with the coalescing
window, so the scheduled apply still advances its serial. -/
theorem c10_empty_modify_frame :
    (∀ (z : Zone) (n : Name) (r : Record),
        r.isEmptyRec = true →
        typeLookup ((lookupNode z.nodes n).getD []) r.typeCode = none →
        z.modifyRecord n r = z) ∧
    (∀ (s : CState) (zn n : Name) (r : Record) (i : Nat),
        findZoneIdx s.zones zn = some i →
        r.isEmptyRec = true →
        (∀ z, s.zones[i]? = some z →
          typeLookup ((lookupNode z.nodes n).getD []) r.typeCode = none) →
        (modifyRecord s zn n r).state.zones = s.zones ∧
        (modifyRecord s zn n r).state.pending =
          some (registerZone s.pending i) ∧
        i ∈ registerZone s.pending i ∧
        (i < s.zones.length →
          serialAt (applyChanges (modifyRecord s zn n r).state) i =
            (serialAt s i + 1) % u32Mod)) := by
  have hid : ∀ (z : Zone) (n : Name) (r : Record),
      r.isEmptyRec = true →
      typeLookup ((lookupNode z.nodes n).getD []) r.typeCode = none →
      z.modifyRecord n r = z := by
    intro z n r he ht
    have hrm : ∀ rs, lookupNode z.nodes n = some rs →
        removeSameType rs r.typeCode = none := by
      intro rs hl
      rw [hl] at ht
      simp only [Option.getD_some] at ht
      rw [removeSameType_eq_none]
      intro x hx
      have hfx := List.find?_eq_none.mp ht x hx
      simpa using hfx
    simp only [Zone.modifyRecord, he, Bool.not_true, Bool.false_eq_true,
      if_false]
    cases hl : lookupNode z.nodes n with
    | none => rfl
    | some rs => simp only [hrm rs hl]
  refine ⟨hid, ?_⟩
  intro s zn n r i hfind he ht
  obtain ⟨hz, hp, _, _⟩ := modifyRecord_state_zones s zn n r i hfind
  have hzones : (modifyRecord s zn n r).state.zones = s.zones := by
    rw [hz]
    apply List.ext_getElem?
    intro j
    by_cases hj : j = i
    · subst hj
      rw [List.getElem?_modify_eq]
      cases hsj : s.zones[j]? with
      | none => rfl
      | some z => simp [hid z n r he (ht z hsj)]
    · rw [List.getElem?_modify_ne _ _ (Ne.symm hj)]
  refine ⟨hzones, hp, registerZone_mem s.pending i, ?_⟩
  intro hlt
  have : (applyChanges (modifyRecord s zn n r).state).zones =
      bumpZones (registerZone s.pending i) 0 s.zones := by
    simp [applyChanges, hzones, hp]
  rw [serialAt, this, bumpZones_getElem?]
  have hzget : s.zones[i]? = some s.zones[i] := List.getElem?_eq_getElem hlt
  rw [hzget]
  simp only [Option.map_some', Option.getD_some, Nat.zero_add, serialAt, hzget]
  rw [if_pos (registerZone_mem s.pending i)]

/-- C10 witness: removing a TXT record from a node that has none leaves
zoneS2 untouched while the scheduled apply still bumps its serial from 5
to 6. -/
theorem c10_empty_modify_frame_witness :
    (zoneS2.modifyRecord "_acme-challenge".data (Record.TXT [] 0) = zoneS2) ∧
    ((modifyRecord (InitWithSerial 5 [zoneS2]) "example.org.".data
        "_acme-challenge".data (Record.TXT [] 0)).state.zones =
      (InitWithSerial 5 [zoneS2]).zones ∧
     (modifyRecord (InitWithSerial 5 [zoneS2]) "example.org.".data
        "_acme-challenge".data (Record.TXT [] 0)).state.pending =
       some (registerZone (InitWithSerial 5 [zoneS2]).pending 0) ∧
     0 ∈ registerZone (InitWithSerial 5 [zoneS2]).pending 0 ∧
     (0 < (InitWithSerial 5 [zoneS2]).zones.length →
       serialAt (applyChanges
           (modifyRecord (InitWithSerial 5 [zoneS2]) "example.org.".data
             "_acme-challenge".data (Record.TXT [] 0)).state) 0 =
         (serialAt (InitWithSerial 5 [zoneS2]) 0 + 1) % u32Mod)) :=
  ⟨c10_empty_modify_frame.1 zoneS2 "_acme-challenge".data (Record.TXT [] 0)
      (by decide) (by decide),
   c10_empty_modify_frame.2 (InitWithSerial 5 [zoneS2]) "example.org.".data
      "_acme-challenge".data (Record.TXT [] 0) 0 (by decide) (by decide)
      (by
        intro z hz
        have h0 : (InitWithSerial 5 [zoneS2]).zones[0]? =
            some { zoneS2 with serial := 5 } := rfl
        injection h0.symm.trans hz with h
        subst h
        decide)⟩

/-! Claim C8: at most one record per type code. -/

theorem replaceSameType_types (rs : Records) (r : Record) (ys : Records)
    (h : replaceSameType rs r = some ys) :
    ys.map Record.typeCode = rs.map Record.typeCode := by
  induction rs generalizing ys with
  | nil => simp [replaceSameType] at h
  | cons x xs ih =>
      by_cases hx : x.typeCode = r.typeCode
      · simp only [replaceSameType, if_pos hx] at h
        cases h
        simp [hx]
      · simp only [replaceSameType, if_neg hx] at h
        cases hrec : replaceSameType xs r with
        | none => rw [hrec] at h; simp at h
        | some zs =>
            rw [hrec] at h
            simp only [Option.some.injEq] at h
            subst h
            simp [ih zs hrec]

theorem replaceSameType_eq_none (rs : Records) (r : Record) :
    replaceSameType rs r = none ↔ ∀ x ∈ rs, x.typeCode ≠ r.typeCode := by
  induction rs with
  | nil => simp [replaceSameType]
  | cons x xs ih =>
      by_cases h : x.typeCode = r.typeCode
      · simp [replaceSameType, h]
      · simp only [replaceSameType, if_neg h]
        cases hr : replaceSameType xs r with
        | some ys => simp [hr] at ih ⊢; tauto
        | none => simp [hr] at ih ⊢; tauto

theorem replaceSameType_find (rs : Records) (r : Record) (ys : Records)
    (h : replaceSameType rs r = some ys) :
    typeLookup ys r.typeCode = some r := by
  induction rs generalizing ys with
  | nil => simp [replaceSameType] at h
  | cons x xs ih =>
      by_cases hx : x.typeCode = r.typeCode
      · simp only [replaceSameType, if_pos hx] at h
        cases h
        simp [typeLookup]
      · simp only [replaceSameType, if_neg hx] at h
        cases hrec : replaceSameType xs r with
        | none => rw [hrec] at h; simp at h
        | some zs =>
            rw [hrec] at h
            simp only [Option.some.injEq] at h
            subst h
            simpa [typeLookup, hx] using ih zs hrec

theorem removeSameType_sublist (rs : Records) (t : Nat) (ys : Records)
    (h : removeSameType rs t = some ys) :
    List.Sublist (ys.map Record.typeCode) (rs.map Record.typeCode) := by
  induction rs generalizing ys with
  | nil => simp [removeSameType] at h
  | cons x xs ih =>
      by_cases hx : x.typeCode = t
      · simp only [removeSameType, if_pos hx] at h
        cases h
        exact (List.sublist_cons_self _ _)
      · simp only [removeSameType, if_neg hx] at h
        cases hrec : removeSameType xs t with
        | none => rw [hrec] at h; simp at h
        | some zs =>
            rw [hrec] at h
            simp only [Option.some.injEq] at h
            subst h
            exact List.Sublist.cons₂ _ (ih zs hrec)

theorem removeSameType_no_type (rs : Records) (t : Nat) :
    ∀ ys, recordsTypeNodup rs → removeSameType rs t = some ys →
      ∀ x ∈ ys, x.typeCode ≠ t := by
  induction rs with
  | nil => intro ys _ h; simp [removeSameType] at h
  | cons x xs ih =>
      intro ys hnd h
      unfold recordsTypeNodup at hnd
      simp only [List.map_cons, List.nodup_cons] at hnd
      by_cases hx : x.typeCode = t
      · simp only [removeSameType, if_pos hx] at h
        cases h
        intro y hy hyt
        exact hnd.1 (hx ▸ hyt ▸ List.mem_map_of_mem Record.typeCode hy)
      · simp only [removeSameType, if_neg hx] at h
        cases hrec : removeSameType xs t with
        | none => rw [hrec] at h; simp at h
        | some zs =>
            rw [hrec] at h
            simp only [Option.some.injEq] at h
            subst h
            intro y hy
            cases List.mem_cons.mp hy with
            | inl hyx => exact hyx ▸ hx
            | inr hyz => exact ih zs hnd.2 hrec y hyz

theorem lookupNode_mem (m : NodeMap) (n : Name) (rs : Records)
    (h : lookupNode m n = some rs) : (n, rs) ∈ m := by
  induction m with
  | nil => simp [lookupNode] at h
  | cons p rest ih =>
      by_cases hp : p.1 = n
      · obtain ⟨k, v⟩ := p
        simp only [lookupNode] at h
        rw [if_pos hp] at h
        cases h
        simp only at hp
        subst hp
        exact List.mem_cons_self _ _
      · obtain ⟨k, v⟩ := p
        simp only [lookupNode] at h
        rw [if_neg hp] at h
        exact List.mem_cons_of_mem _ (ih h)

theorem mem_setNode (m : NodeMap) (n : Name) (rs : Records) (p : Name × Records)
    (h : p ∈ setNode m n rs) : p = (n, rs) ∨ p ∈ m := by
  induction m with
  | nil => simpa [setNode] using h
  | cons q rest ih =>
      obtain ⟨k, v⟩ := q
      simp only [setNode] at h
      by_cases hk : k = n
      · rw [if_pos hk] at h
        cases List.mem_cons.mp h with
        | inl h1 => exact Or.inl h1
        | inr h2 => exact Or.inr (List.mem_cons_of_mem _ h2)
      · rw [if_neg hk] at h
        cases List.mem_cons.mp h with
        | inl h1 => exact Or.inr (h1 ▸ List.mem_cons_self _ _)
        | inr h2 =>
            cases ih h2 with
            | inl h3 => exact Or.inl h3
            | inr h4 => exact Or.inr (List.mem_cons_of_mem _ h4)

theorem mem_deleteNode (m : NodeMap) (n : Name) (p : Name × Records)
    (h : p ∈ deleteNode m n) : p ∈ m := by
  induction m with
  | nil => simp [deleteNode] at h
  | cons q rest ih =>
      obtain ⟨k, v⟩ := q
      simp only [deleteNode] at h
      by_cases hk : k = n
      · rw [if_pos hk] at h
        exact List.mem_cons_of_mem _ (ih h)
      · rw [if_neg hk] at h
        cases List.mem_cons.mp h with
        | inl h1 => exact h1 ▸ List.mem_cons_self _ _
        | inr h2 => exact List.mem_cons_of_mem _ (ih h2)

theorem lookupNode_setNode_self (m : NodeMap) (n : Name) (rs : Records) :
    lookupNode (setNode m n rs) n = some rs := by
  induction m with
  | nil => simp [setNode, lookupNode]
  | cons q rest ih =>
      obtain ⟨k, v⟩ := q
      simp only [setNode]
      by_cases hk : k = n
      · rw [if_pos hk]
        simp [lookupNode]
      · rw [if_neg hk]
        simp only [lookupNode, if_neg hk]
        exact ih

theorem lookupNode_deleteNode_self (m : NodeMap) (n : Name) :
    lookupNode (deleteNode m n) n = none := by
  induction m with
  | nil => simp [deleteNode, lookupNode]
  | cons q rest ih =>
      obtain ⟨k, v⟩ := q
      simp only [deleteNode]
      by_cases hk : k = n
      · rw [if_pos hk]
        exact ih
      · rw [if_neg hk]
        simp only [lookupNode, if_neg hk]
        exact ih

theorem typeLookup_append (rs ss : Records) (t : Nat)
    (h : typeLookup rs t = none) :
    typeLookup (rs ++ ss) t = typeLookup ss t := by
  induction rs with
  | nil => simp
  | cons x xs ih =>
      simp only [typeLookup, List.find?] at h ⊢
      cases hx : (x.typeCode = t : Bool) with
      | true => rw [hx] at h; simp at h
      | false =>
          rw [hx] at h
          simp only [List.cons_append, List.find?, hx]
          exact ih h

/-- Invariant preservation of a single zone modification. -/
theorem modifyRecord_nodup (z : Zone) (n : Name) (r : Record)
    (h : ∀ p ∈ z.nodes, recordsTypeNodup p.2) :
    ∀ p ∈ (z.modifyRecord n r).nodes, recordsTypeNodup p.2 := by
  have hbase : recordsTypeNodup ((lookupNode z.nodes n).getD []) := by
    cases hl : lookupNode z.nodes n with
    | none => simp [recordsTypeNodup]
    | some rs => exact h (n, rs) (lookupNode_mem z.nodes n rs hl)
  simp only [Zone.modifyRecord]
  split
  · cases hrep : replaceSameType ((lookupNode z.nodes n).getD []) r with
    | some ys =>
        simp only [hrep]
        intro p hp
        cases mem_setNode _ _ _ _ hp with
        | inl h1 =>
            subst h1
            unfold recordsTypeNodup
            rw [replaceSameType_types _ r ys hrep]
            exact hbase
        | inr h2 => exact h p h2
    | none =>
        simp only [hrep]
        intro p hp
        cases mem_setNode _ _ _ _ hp with
        | inl h1 =>
            subst h1
            unfold recordsTypeNodup
            rw [List.map_append]
            simp only [List.map_cons, List.map_nil]
            rw [List.nodup_append]
            refine ⟨hbase, List.nodup_singleton _, ?_⟩
            intro a ha hb
            simp only [List.mem_singleton] at hb
            subst hb
            obtain ⟨x, hx, hxt⟩ := List.mem_map.mp ha
            exact (replaceSameType_eq_none _ r).mp hrep x hx hxt
        | inr h2 => exact h p h2
  · split
    · exact h
    · split
      · exact h
      · split
        · next rs hl _ rs2 hrm _ =>
            intro p hp
            cases mem_setNode _ _ _ _ hp with
            | inl h1 =>
                subst h1
                unfold recordsTypeNodup
                have hsub := removeSameType_sublist rs r.typeCode rs2 hrm
                have : recordsTypeNodup rs :=
                  h (n, rs) (lookupNode_mem z.nodes n rs hl)
                exact List.Nodup.sublist hsub this
            | inr h2 => exact h p h2
        · intro p hp
          exact h p (mem_deleteNode _ _ _ hp)

theorem bumpZones_nodes (p : List Nat) :
    ∀ (k : Nat) (zs : List Zone) (z : Zone), z ∈ bumpZones p k zs →
      ∃ w ∈ zs, z.nodes = w.nodes := by
  intro k zs
  induction zs generalizing k with
  | nil => intro z h; simp [bumpZones] at h
  | cons w rest ih =>
      intro z h
      simp only [bumpZones] at h
      cases List.mem_cons.mp h with
      | inl h1 =>
          refine ⟨w, List.mem_cons_self _ _, ?_⟩
          subst h1
          split <;> rfl
      | inr h2 =>
          obtain ⟨w2, hw2, hn⟩ := ih (k + 1) z h2
          exact ⟨w2, List.mem_cons_of_mem _ hw2, hn⟩

theorem mem_modify {α : Type} (f : α → α) :
    ∀ (i : Nat) (l : List α) (z : α), z ∈ l.modify f i →
      z ∈ l ∨ ∃ w ∈ l, z = f w := by
  intro i l
  induction l generalizing i with
  | nil => intro z h; simp at h
  | cons x xs ih =>
      intro z h
      cases i with
      | zero =>
          rw [List.modify_zero_cons] at h
          cases List.mem_cons.mp h with
          | inl h1 => exact Or.inr ⟨x, List.mem_cons_self _ _, h1⟩
          | inr h2 => exact Or.inl (List.mem_cons_of_mem _ h2)
      | succ j =>
          rw [List.modify_succ_cons] at h
          cases List.mem_cons.mp h with
          | inl h1 => exact Or.inl (h1 ▸ List.mem_cons_self _ _)
          | inr h2 =>
              cases ih j z h2 with
              | inl h3 => exact Or.inl (List.mem_cons_of_mem _ h3)
              | inr h4 =>
                  obtain ⟨w, hw, hzw⟩ := h4
                  exact Or.inr ⟨w, List.mem_cons_of_mem _ hw, hzw⟩

theorem stateInv_step (s : CState) (op : Op) (h : stateInv s) :
    stateInv (stepOp s op) := by
  cases op with
  | applyCb =>
      intro z hz p hp
      obtain ⟨w, hw, hn⟩ := bumpZones_nodes _ 0 s.zones z hz
      exact h w hw p (hn ▸ hp)
  | modify zn n r =>
      simp only [stepOp]
      cases hf : findZoneIdx s.zones zn with
      | none =>
          simp only [modifyRecord, hf]
          exact h
      | some i =>
          obtain ⟨hz, _, _, _⟩ := modifyRecord_state_zones s zn n r i hf
          intro z hz2 p hp
          rw [hz] at hz2
          cases mem_modify _ i s.zones z hz2 with
          | inl h1 => exact h z h1 p hp
          | inr h2 =>
              obtain ⟨w, hw, rfl⟩ := h2
              exact modifyRecord_nodup w n r (fun q hq => h w hw q hq) p hp

/-- C8: construction followed by any sequence of operations keeps at most
one record per type code in every node's record set; a non-empty record
replaces/installs so that its type maps to exactly it, and an empty record
leaves no record of its type behind. -/
theorem c8_at_most_one_per_type :
    (∀ (st : CState) (ops : List Op), stateInv st → stateInv (runOps st ops)) ∧
    (∀ (z : Zone) (n : Name) (r : Record),
        r.isEmptyRec = false →
        typeLookup ((lookupNode (z.modifyRecord n r).nodes n).getD [])
          r.typeCode = some r) ∧
    (∀ (z : Zone) (n : Name) (r : Record),
        r.isEmptyRec = true →
        (∀ p ∈ z.nodes, recordsTypeNodup p.2) →
        typeLookup ((lookupNode (z.modifyRecord n r).nodes n).getD [])
          r.typeCode = none) := by
  refine ⟨?_, ?_, ?_⟩
  · intro st ops
    induction ops generalizing st with
    | nil => exact fun h => h
    | cons op rest ih =>
        intro h
        exact ih (stepOp st op) (stateInv_step st op h)
  · intro z n r he
    simp only [Zone.modifyRecord, he, Bool.not_false, if_true]
    cases hrep : replaceSameType ((lookupNode z.nodes n).getD []) r with
    | some ys =>
        simp only [hrep, lookupNode_setNode_self, Option.getD_some]
        exact replaceSameType_find _ r ys hrep
    | none =>
        simp only [hrep, lookupNode_setNode_self, Option.getD_some]
        rw [typeLookup_append]
        · simp [typeLookup]
        · simp only [typeLookup]
          rw [List.find?_eq_none]
          intro x hx
          simpa using (replaceSameType_eq_none _ r).mp hrep x hx
  · intro z n r he hnd
    simp only [Zone.modifyRecord, he, Bool.not_true, Bool.false_eq_true,
      if_false]
    cases hl : lookupNode z.nodes n with
    | none => simp [hl, typeLookup]
    | some rs =>
        cases hrm : removeSameType rs r.typeCode with
        | none =>
            simp only [hrm]
            rw [hl]
            simp only [Option.getD_some, typeLookup]
            rw [List.find?_eq_none]
            intro x hx
            simpa using (removeSameType_eq_none rs r.typeCode).mp hrm x hx
        | some rs2 =>
            have hnd2 : recordsTypeNodup rs :=
              hnd (n, rs) (lookupNode_mem z.nodes n rs hl)
            simp only [hrm]
            split
            · simp only [lookupNode_setNode_self, Option.getD_some, typeLookup]
              rw [List.find?_eq_none]
              intro x hx
              simpa using removeSameType_no_type rs r.typeCode rs2 hnd2 hrm x hx
            · simp [lookupNode_deleteNode_self, typeLookup]

/-- C8 witness: the invariant holds along a concrete trace, a concrete
TXT install is retrievable by type, and a concrete removal leaves no TXT
record. -/
theorem c8_at_most_one_per_type_witness :
    stateInv (runOps (InitWithSerial 5 [zoneS5])
      [Op.modify "example.org.".data "_acme-challenge".data
        (Record.TXT [['a']] 1), Op.applyCb]) ∧
    typeLookup ((lookupNode (zoneS5.modifyRecord "www".data
        (Record.TXT [['x']] 9)).nodes "www".data).getD []) 16 =
      some (Record.TXT [['x']] 9) ∧
    typeLookup ((lookupNode (zoneS5.modifyRecord "www".data
        (Record.TXT [] 0)).nodes "www".data).getD []) 16 = none :=
  ⟨c8_at_most_one_per_type.1 (InitWithSerial 5 [zoneS5]) _ (by decide),
   c8_at_most_one_per_type.2.1 zoneS5 "www".data (Record.TXT [['x']] 9)
      (by decide),
   c8_at_most_one_per_type.2.2 zoneS5 "www".data (Record.TXT [] 0)
      (by decide) (by decide)⟩

/-! Claim C2: serial coalescing and monotonicity. -/

theorem serialAt_applyChanges (s : CState) (i : Nat)
    (h : i < s.zones.length) :
    serialAt (applyChanges s) i =
      if i ∈ s.pending.getD [] then (serialAt s i + 1) % u32Mod
      else serialAt s i := by
  have hz : s.zones[i]? = some s.zones[i] := List.getElem?_eq_getElem h
  simp only [serialAt, applyChanges, bumpZones_getElem?, Nat.zero_add, hz]
  by_cases hm : i ∈ s.pending.getD []
  · simp [hm]
  · simp [hm]

theorem serialAt_modify (s : CState) (zn n : Name) (r : Record) (j : Nat) :
    serialAt (modifyRecord s zn n r).state j = serialAt s j := by
  cases hf : findZoneIdx s.zones zn with
  | none => simp only [modifyRecord, hf]
  | some i => exact (c3_modify_zone_lookup.2.2 s zn n r i hf).2.2.2 j

theorem serialAt_step_le (s : CState) (op : Op) (i : Nat) :
    serialAt (stepOp s op) i ≤
      serialAt s i + (match op with | .applyCb => 1 | _ => 0) := by
  cases op with
  | modify zn n r => simp [stepOp, serialAt_modify]
  | applyCb =>
      by_cases h : i < s.zones.length
      · rw [stepOp, serialAt_applyChanges s i h]
        by_cases hm : i ∈ s.pending.getD []
        · rw [if_pos hm]
          exact Nat.le_trans (Nat.mod_le _ _) (Nat.le_refl _)
        · rw [if_neg hm]
          exact Nat.le_succ _
      · have hz : s.zones[i]? = none := by
          rw [List.getElem?_eq_none_iff]
          omega
        have hz2 : (applyChanges s).zones[i]? = none := by
          rw [List.getElem?_eq_none_iff]
          simp only [applyChanges]
          rw [show (bumpZones (s.pending.getD []) 0 s.zones).length
              = s.zones.length from ?_]
          · omega
          · clear hz
            generalize s.zones = zs
            generalize s.pending.getD [] = p
            generalize 0 = k
            induction zs generalizing k with
            | nil => rfl
            | cons z rest ih => simp [bumpZones, ih]
        simp [stepOp, serialAt, hz, hz2]

theorem serialAt_runOps_le (s : CState) (ops : List Op) (i : Nat) :
    serialAt (runOps s ops) i ≤ serialAt s i + applyCount ops := by
  induction ops generalizing s with
  | nil => simp [runOps, applyCount]
  | cons op rest ih =>
      have h1 := serialAt_step_le s op i
      have h2 := ih (stepOp s op)
      cases op with
      | modify zn n r =>
          simp only [runOps, applyCount]
          have h3 : serialAt (stepOp s (.modify zn n r)) i = serialAt s i := by
            simp [stepOp, serialAt_modify]
          calc serialAt (runOps (stepOp s (.modify zn n r)) rest) i
              ≤ serialAt (stepOp s (.modify zn n r)) i + applyCount rest := h2
            _ = serialAt s i + applyCount rest := by rw [h3]
      | applyCb =>
          simp only [runOps, applyCount]
          have h3 : serialAt (stepOp s .applyCb) i ≤ serialAt s i + 1 := by
            simpa using serialAt_step_le s .applyCb i
          calc serialAt (runOps (stepOp s .applyCb) rest) i
              ≤ serialAt (stepOp s .applyCb) i + applyCount rest := h2
            _ ≤ serialAt s i + 1 + applyCount rest :=
                  Nat.add_le_add_right h3 (applyCount rest)
            _ = serialAt s i + (applyCount rest + 1) := by omega

theorem serialAt_step_ge (s : CState) (op : Op) (i : Nat)
    (h : serialAt s i + 1 < u32Mod) :
    serialAt s i ≤ serialAt (stepOp s op) i := by
  cases op with
  | modify zn n r => simp [stepOp, serialAt_modify]
  | applyCb =>
      by_cases hl : i < s.zones.length
      · rw [stepOp, serialAt_applyChanges s i hl]
        by_cases hm : i ∈ s.pending.getD []
        · rw [if_pos hm, Nat.mod_eq_of_lt h]
          omega
        · rw [if_neg hm]
      · have hz : s.zones[i]? = none := by
          rw [List.getElem?_eq_none_iff]; omega
        simp [serialAt, hz]

theorem serialAt_runOps_mono (ops : List Op) (s : CState) (i : Nat)
    (h : serialAt s i + applyCount ops < u32Mod) :
    serialAt s i ≤ serialAt (runOps s ops) i := by
  induction ops generalizing s with
  | nil => simp [runOps]
  | cons op rest ih =>
      have hle := serialAt_step_le s op i
      have h1 : serialAt s i + 1 < u32Mod ∨
          (match op with | Op.applyCb => (1:Nat) | _ => 0) = 0 := by
        cases op with
        | applyCb => left; simp only [applyCount] at h; omega
        | modify zn n r => right; rfl
      have hstep : serialAt s i ≤ serialAt (stepOp s op) i := by
        cases h1 with
        | inl h2 => exact serialAt_step_ge s op i h2
        | inr h2 =>
            cases op with
            | modify zn n r => simp [stepOp, serialAt_modify]
            | applyCb => simp at h2
      have hrest : serialAt (stepOp s op) i + applyCount rest < u32Mod := by
        cases op with
        | modify zn n r =>
            simp only [applyCount] at h
            simp only [stepOp, serialAt_modify]
            exact h
        | applyCb =>
            simp only [applyCount] at h
            have := serialAt_step_le s .applyCb i
            simp only at this
            omega
      exact Nat.le_trans hstep (ih (stepOp s op) hrest)

theorem runOps_append (s : CState) (t1 t2 : List Op) :
    runOps s (t1 ++ t2) = runOps (runOps s t1) t2 := by
  induction t1 generalizing s with
  | nil => rfl
  | cons op rest ih =>
      simp only [List.cons_append, runOps]
      exact ih (stepOp s op)

theorem applyCount_append (t1 t2 : List Op) :
    applyCount (t1 ++ t2) = applyCount t1 + applyCount t2 := by
  induction t1 with
  | nil => simp [applyCount]
  | cons op rest ih =>
      cases op with
      | modify zn n r =>
          simp only [List.cons_append, applyCount]
          exact ih
      | applyCb =>
          simp only [List.cons_append, applyCount]
          show applyCount (rest ++ t2) + 1 = applyCount rest + 1 + applyCount t2
          rw [ih]
          omega

/-- C2: the apply-callback increments every zone registered with the
window exactly once (re-registration is idempotent), closes the window and
clears the coalescing state; writers in one window share its signal; and
serials never decrease along any operation sequence (absent uint32
overflow), increasing strictly at an apply whose window holds the zone. -/
theorem c2_serial_coalescing :
    (∀ (s : CState) (i : Nat), i < s.zones.length →
        serialAt (applyChanges s) i =
          (if i ∈ s.pending.getD [] then (serialAt s i + 1) % u32Mod
           else serialAt s i)) ∧
    (∀ s : CState, (applyChanges s).pending = none ∧
        (applyChanges s).window = s.window + 1) ∧
    (∀ (p : Option (List Nat)) (i : Nat),
        registerZone (some (registerZone p i)) i = registerZone p i) ∧
    (∀ (s : CState) (zn n : Name) (r : Record) (i : Nat),
        findZoneIdx s.zones zn = some i →
        (modifyRecord s zn n r).signal = some s.window ∧
        (modifyRecord s zn n r).state.window = s.window) ∧
    (∀ (s : CState) (pre post : List Op) (i : Nat),
        serialAt s i + applyCount (pre ++ post) < u32Mod →
        serialAt (runOps s pre) i ≤ serialAt (runOps s (pre ++ post)) i) ∧
    (∀ (s : CState) (i : Nat), i < s.zones.length →
        i ∈ s.pending.getD [] → serialAt s i + 1 < u32Mod →
        serialAt (applyChanges s) i = serialAt s i + 1) := by
  refine ⟨?_, ?_, ?_, ?_, ?_, ?_⟩
  · exact serialAt_applyChanges
  · intro s
    exact ⟨rfl, rfl⟩
  · intro p i
    have h := registerZone_mem p i
    generalize hq : registerZone p i = l at h ⊢
    simp only [registerZone, Option.getD_some]
    rw [if_pos h]
  · intro s zn n r i hf
    have := modifyRecord_state_zones s zn n r i hf
    exact ⟨this.2.2.2, by simp only [modifyRecord, hf]⟩
  · intro s pre post i h
    rw [runOps_append]
    rw [applyCount_append] at h
    refine serialAt_runOps_mono post (runOps s pre) i ?_
    have hb := serialAt_runOps_le s pre i
    omega
  · intro s i hl hm hover
    rw [serialAt_applyChanges s i hl, if_pos hm, Nat.mod_eq_of_lt hover]

/-- C2 witness: a window holding zone 0 bumps its serial from 5 to 6 once,
clears the pending set, double registration is idempotent, the writer gets
the window's signal, and serials are monotone along a concrete trace. -/
theorem c2_serial_coalescing_witness :
    (serialAt (applyChanges stateW) 0 =
      (if 0 ∈ stateW.pending.getD [] then
        (serialAt stateW 0 + 1) % u32Mod
       else serialAt stateW 0)) ∧
    (modifyRecord (InitWithSerial 5 [zoneS2]) "example.org.".data
        "_acme-challenge".data (Record.TXT [['a']] 1)).signal =
      some (InitWithSerial 5 [zoneS2]).window ∧
    serialAt (runOps (InitWithSerial 5 [zoneS2])
        [Op.modify "example.org.".data "_acme-challenge".data
          (Record.TXT [['a']] 1)]) 0 ≤
      serialAt (runOps (InitWithSerial 5 [zoneS2])
        ([Op.modify "example.org.".data "_acme-challenge".data
          (Record.TXT [['a']] 1)] ++ [Op.applyCb])) 0 :=
  ⟨c2_serial_coalescing.1 stateW 0 (by decide),
   (c2_serial_coalescing.2.2.2.1 (InitWithSerial 5 [zoneS2])
      "example.org.".data "_acme-challenge".data (Record.TXT [['a']] 1) 0
      (by decide)).1,
   c2_serial_coalescing.2.2.2.2.1 (InitWithSerial 5 [zoneS2])
      [Op.modify "example.org.".data "_acme-challenge".data
        (Record.TXT [['a']] 1)] [Op.applyCb] 0 (by decide)⟩

/-! Responder dispatch lemmas: the reply of handle on each path. -/

theorem replyType_soa_of_transfer (qt : Nat) (h : transferReq qt = true) :
    replyType qt typeSOA = true ∧ replyType qt typeNS = true := by
  simp only [transferReq, decide_eq_true_eq] at h
  rcases h with h | h <;> simp [replyType, h]

theorem handle_transfer_found (q : Question) (rv : Resolver) (soa : SOA)
    (nodes : List DnsNode) (ser : Nat)
    (hclass : q.qclass = classIN) (htr : transferReq q.qtype = true)
    (hauth : soa.authority = true)
    (htz : rv.transferZone (lowerName q.qname) = (some nodes, ser)) :
    handle [q] rv soa =
      { rcode := rcodeSuccess, authoritative := true,
        answers :=
          ([soaAnswer q soa ser] ++ [RR.ns q.qname soa.ttl soa.ns]) ++
            nodes.flatMap (nodeAnswers q true) ++ [soaAnswer q soa ser],
        authority := [] } := by
  obtain ⟨hsoa, hns⟩ := replyType_soa_of_transfer q.qtype htr
  simp only [handle, hclass]
  rw [if_neg (by simp)]
  simp only [htr, hauth, htz, if_true, hsoa, hns]
  simp [negativeAnswer, rcodeSuccess, rcodeNameError]

theorem handle_transfer_missing (q : Question) (rv : Resolver) (soa : SOA)
    (ser : Nat)
    (hclass : q.qclass = classIN) (htr : transferReq q.qtype = true)
    (hauth : soa.authority = true)
    (htz : rv.transferZone (lowerName q.qname) = (none, ser)) :
    handle [q] rv soa =
      { rcode := rcodeNameError, authoritative := true,
        answers := [], authority := [soaAnswer q soa ser] } := by
  simp only [handle, hclass]
  rw [if_neg (by simp)]
  simp only [htr, hauth, htz, if_true]
  simp [negativeAnswer, rcodeNameError]

theorem handle_transfer_noauth (q : Question) (rv : Resolver) (soa : SOA)
    (hclass : q.qclass = classIN) (htr : transferReq q.qtype = true)
    (hauth : soa.authority = false) :
    handle [q] rv soa =
      { rcode := rcodeNameError, authoritative := false,
        answers := [], authority := [] } := by
  simp only [handle, hclass]
  rw [if_neg (by simp)]
  simp only [htr, hauth, if_true]
  simp [negativeAnswer, rcodeNameError]

theorem handle_resolve_missing (q : Question) (rv : Resolver) (soa : SOA)
    (rs : Records) (ser : Nat)
    (hclass : q.qclass = classIN) (htr : transferReq q.qtype = false)
    (hres : rv.resolveRecords (lowerName q.qname) q.qtype = ([], rs, ser)) :
    handle [q] rv soa =
      { rcode := rcodeNameError, authoritative := soa.authority,
        answers := [],
        authority :=
          if soa.authority = true then [soaAnswer q soa ser] else [] } := by
  simp only [handle, hclass]
  rw [if_neg (by simp)]
  simp only [htr, hres, Bool.false_eq_true, if_false]
  simp [negativeAnswer, rcodeNameError]

theorem handle_resolve_found (q : Question) (rv : Resolver) (soa : SOA)
    (n : Name) (rs : Records) (ser : Nat)
    (hclass : q.qclass = classIN) (htr : transferReq q.qtype = false)
    (hres : rv.resolveRecords (lowerName q.qname) q.qtype = (n, rs, ser))
    (hne : n ≠ []) :
    handle [q] rv soa =
      (let apexBlock :=
        if (n = apexName) ∧ soa.authority = true then
          (if replyType q.qtype typeSOA then [soaAnswer q soa ser] else []) ++
          (if replyType q.qtype typeNS then [RR.ns q.qname soa.ttl soa.ns]
           else [])
        else []
       let answers := apexBlock ++ nodeAnswers q (n = apexName) ⟨n, rs⟩
       { rcode := rcodeSuccess, authoritative := soa.authority,
         answers := answers,
         authority :=
           if answers.isEmpty ∧ soa.authority = true then
             [soaAnswer q soa ser]
           else [] }) := by
  have hnei : n.isEmpty = false := by
    cases n with
    | nil => exact absurd rfl hne
    | cons c cs => rfl
  simp only [handle, hclass]
  rw [if_neg (by simp)]
  simp only [htr, hres, Bool.false_eq_true, if_false, hnei]
  simp only [List.flatMap_cons, List.flatMap_nil, List.append_nil,
    negativeAnswer, rcodeSuccess, rcodeNameError]
  cases hap : (decide (n = apexName)) with
  | false =>
      have hap2 : (n = apexName) = False := by
        simpa using of_decide_eq_false hap
      simp [hap2, negativeAnswer]
  | true =>
      have hap2 : n = apexName := of_decide_eq_true hap
      by_cases hsa : soa.authority = true
      · simp [hap2, negativeAnswer, hsa]
      · simp [hap2, negativeAnswer, hsa]

theorem nodeAnswers_no_soa (q : Question) (b : Bool) (node : DnsNode) :
    ∀ rr ∈ nodeAnswers q b node, rr.soaSerial = none := by
  intro rr hrr
  simp only [nodeAnswers, List.mem_flatMap] at hrr
  obtain ⟨r, _, hr⟩ := hrr
  cases r with
  | A v ttl =>
      simp only [recordAnswers] at hr
      split at hr
      · simp only [List.mem_singleton] at hr; subst hr; rfl
      · simp at hr
  | NS v ttl =>
      simp only [recordAnswers] at hr
      split at hr
      · simp only [List.mem_singleton] at hr; subst hr; rfl
      · simp at hr
  | TXT vs ttl =>
      simp only [recordAnswers] at hr
      split at hr
      · simp only [List.mem_singleton] at hr; subst hr; rfl
      · simp at hr
  | AAAA v ttl =>
      simp only [recordAnswers] at hr
      split at hr
      · simp only [List.mem_singleton] at hr; subst hr; rfl
      · simp at hr

theorem questionSerial_transfer (q : Question) (rv : Resolver) (soa : SOA)
    (x : Option (List DnsNode)) (ser : Nat)
    (htr : transferReq q.qtype = true) (hauth : soa.authority = true)
    (htz : rv.transferZone (lowerName q.qname) = (x, ser)) :
    questionSerial q rv soa = ser := by
  simp [questionSerial, htr, hauth, htz]

theorem questionSerial_resolve (q : Question) (rv : Resolver) (soa : SOA)
    (n : Name) (rs : Records) (ser : Nat)
    (htr : transferReq q.qtype = false)
    (hres : rv.resolveRecords (lowerName q.qname) q.qtype = (n, rs, ser)) :
    questionSerial q rv soa = ser := by
  simp [questionSerial, htr, hres]

theorem mem_ite_list {α : Type} (x : α) (c : Prop) [Decidable c]
    (l1 l2 : List α) (h : x ∈ if c then l1 else l2) : x ∈ l1 ∨ x ∈ l2 := by
  split at h
  · exact Or.inl h
  · exact Or.inr h

/-! Claim C7: negative-answer authority and SOA serial selection. -/

/-- C7: for a well-formed single IN question, a reply whose rcode is
NXDOMAIN or whose answer section is empty gets, when SOA authority is
configured, exactly one SOA record in the authority section; and every SOA
record the responder emits carries the matched zone's serial, with the
hard-coded 1 substituted when that serial is zero. -/
theorem c7_negative_answer_soa :
    ∀ (rv : Resolver) (soa : SOA) (q : Question),
      q.qclass = classIN →
      ((((handle [q] rv soa).rcode = rcodeNameError ∨
            (handle [q] rv soa).answers = []) ∧ soa.authority = true) →
        (handle [q] rv soa).authority =
          [soaAnswer q soa (questionSerial q rv soa)]) ∧
      (∀ rr ∈ (handle [q] rv soa).answers ++ (handle [q] rv soa).authority,
        ∀ sn, rr.soaSerial = some sn →
          sn = (if questionSerial q rv soa = 0 then defaultSerial
                else questionSerial q rv soa)) := by
  intro rv soa q hclass
  have hser : ∀ (ser sn : Nat),
      (soaAnswer q soa ser).soaSerial = some sn →
      sn = if ser = 0 then defaultSerial else ser := by
    intro ser sn h
    simp only [soaAnswer, RR.soaSerial, Option.some.injEq] at h
    exact h.symm
  by_cases htr : transferReq q.qtype = true
  · rcases htz : rv.transferZone (lowerName q.qname) with ⟨x, ser⟩
    by_cases hauth : soa.authority = true
    · have hqs : questionSerial q rv soa = ser :=
        questionSerial_transfer q rv soa x ser htr hauth htz
      cases x with
      | some nodes =>
          rw [handle_transfer_found q rv soa nodes ser hclass htr hauth htz]
          constructor
          · rintro ⟨hor, -⟩
            cases hor with
            | inl h => simp [rcodeSuccess, rcodeNameError] at h
            | inr h => simp at h
          · intro rr hrr sn hsn
            rw [hqs]
            simp only [List.append_nil] at hrr
            rcases List.mem_append.mp hrr with h1 | h2
            · rcases List.mem_append.mp h1 with h3 | h4
              · rcases List.mem_append.mp h3 with h5 | h6
                · simp only [List.mem_singleton] at h5
                  subst h5
                  exact hser ser sn hsn
                · simp only [List.mem_singleton] at h6
                  subst h6
                  simp [RR.soaSerial] at hsn
              · simp only [List.mem_flatMap] at h4
                obtain ⟨node, -, hna⟩ := h4
                rw [nodeAnswers_no_soa q true node rr hna] at hsn
                simp at hsn
            · simp only [List.mem_singleton] at h2
              subst h2
              exact hser ser sn hsn
      | none =>
          rw [handle_transfer_missing q rv soa ser hclass htr hauth htz]
          constructor
          · intro _
            rw [hqs]
          · intro rr hrr sn hsn
            rw [hqs]
            simp only [List.nil_append, List.mem_singleton] at hrr
            subst hrr
            exact hser ser sn hsn
    · have hauth2 : soa.authority = false := by
        cases h : soa.authority
        · rfl
        · exact absurd h hauth
      rw [handle_transfer_noauth q rv soa hclass htr hauth2]
      constructor
      · rintro ⟨-, htrue⟩
        exact absurd htrue hauth
      · intro rr hrr
        simp at hrr
  · have htr2 : transferReq q.qtype = false := by
      cases h : transferReq q.qtype
      · rfl
      · exact absurd h htr
    rcases hres : rv.resolveRecords (lowerName q.qname) q.qtype with ⟨n, rs, ser⟩
    have hqs : questionSerial q rv soa = ser :=
      questionSerial_resolve q rv soa n rs ser htr2 hres
    by_cases hn : n = []
    · subst hn
      rw [handle_resolve_missing q rv soa rs ser hclass htr2 hres]
      constructor
      · rintro ⟨-, hauth⟩
        rw [if_pos hauth, hqs]
      · intro rr hrr sn hsn
        rw [hqs]
        simp only [List.nil_append] at hrr
        split at hrr
        · simp only [List.mem_singleton] at hrr
          subst hrr
          exact hser ser sn hsn
        · simp at hrr
    · rw [handle_resolve_found q rv soa n rs ser hclass htr2 hres hn]
      dsimp only
      constructor
      · rintro ⟨hor, hauth⟩
        cases hor with
        | inl h => simp [rcodeSuccess, rcodeNameError] at h
        | inr h =>
            rw [h, hqs]
            simp [hauth]
      · intro rr hrr sn hsn
        rw [hqs]
        rcases List.mem_append.mp hrr with h1 | h2
        · rcases List.mem_append.mp h1 with h3 | h4
          · rcases mem_ite_list rr _ _ _ h3 with h5 | h6
            · rcases List.mem_append.mp h5 with h7 | h8
              · rcases mem_ite_list rr _ _ _ h7 with h9 | h10
                · simp only [List.mem_singleton] at h9
                  subst h9
                  exact hser ser sn hsn
                · simp at h10
              · rcases mem_ite_list rr _ _ _ h8 with h9 | h10
                · simp only [List.mem_singleton] at h9
                  subst h9
                  simp [RR.soaSerial] at hsn
                · simp at h10
            · simp at h6
          · rw [nodeAnswers_no_soa q (n = apexName) ⟨n, rs⟩ rr h4] at hsn
            simp at hsn
        · rcases mem_ite_list rr _ _ _ h2 with h5 | h6
          · simp only [List.mem_singleton] at h5
            subst h5
            exact hser ser sn hsn
          · simp at h6

/-- C7 witness: a NODATA reply for foo.example.org. against an
authoritative SOA configuration carries exactly one SOA, with serial 7, in
the authority section. -/
theorem c7_negative_answer_soa_witness :
    (handle [⟨"foo.example.org.".data, typeA, classIN⟩] resolverS2
        soaFix).authority =
      [soaAnswer ⟨"foo.example.org.".data, typeA, classIN⟩ soaFix
        (questionSerial ⟨"foo.example.org.".data, typeA, classIN⟩
          resolverS2 soaFix)] :=
  (c7_negative_answer_soa resolverS2 soaFix
      ⟨"foo.example.org.".data, typeA, classIN⟩ (by decide)).1 (by decide)

/-! Claim C1: known zone, unresolved node. -/

/-- C1 counterexample: for foo.example.org. inside the known zone
example.org. (no foo node, no wildcard), ResolveResource returns the
matched node name "foo" — not the empty name — and the responder replies
SUCCESS (NODATA), not NXDOMAIN. -/
theorem c1_counterexample :
    resolveResource [zoneS2] "foo.example.org.".data =
      (⟨"foo".data, []⟩, 7) ∧
    "foo".data ≠ ([] : Name) ∧
    (handle [⟨"foo.example.org.".data, typeA, classIN⟩] resolverS2
        soaFix).rcode = rcodeSuccess ∧
    rcodeSuccess ≠ rcodeNameError := by
  decide

/-- C1 amended: when the first matching zone's node does not resolve,
ResolveResource returns the matched node name (not the empty string) with
an empty record set and that zone's serial; the responder consequently
replies SUCCESS with an empty answer section and, when SOA authority is
configured, one authoritative SOA in the authority section (NODATA). -/
theorem c1_amended :
    (∀ (zs : List Zone) (name : Name) (z : Zone) (n : Name),
        firstMatch zs name = some (z, n) →
        z.resolveNode n = none →
        resolveResource zs name = (⟨n, []⟩, z.serial)) ∧
    (∀ (rv : Resolver) (soa : SOA) (q : Question) (ser : Nat) (n : Name),
        q.qclass = classIN →
        transferReq q.qtype = false →
        rv.resolveRecords (lowerName q.qname) q.qtype = (n, [], ser) →
        n ≠ [] → n ≠ apexName →
        handle [q] rv soa =
          { rcode := rcodeSuccess, authoritative := soa.authority,
            answers := [],
            authority :=
              if soa.authority = true then [soaAnswer q soa ser]
              else [] }) := by
  constructor
  · intro zs name
    induction zs with
    | nil => intro z n h; simp [firstMatch] at h
    | cons z0 rest ih =>
        intro z n h hres
        simp only [firstMatch] at h
        cases hm : z0.matchResource name with
        | some node =>
            rw [hm] at h
            simp only [Option.some.injEq, Prod.mk.injEq] at h
            obtain ⟨hz, hn⟩ := h
            subst hz
            subst hn
            simp only [resolveResource, hm, hres, Option.getD_none]
        | none =>
            rw [hm] at h
            simp only [resolveResource, hm]
            exact ih z n h hres
  · intro rv soa q ser n hclass htr hres hne hnapex
    rw [handle_resolve_found q rv soa n [] ser hclass htr hres hne]
    dsimp only
    have hap : ¬(n = apexName ∧ soa.authority = true) := by
      intro hc
      exact hnapex hc.1
    rw [if_neg hap]
    simp [nodeAnswers]

/-- C1 amended witness: the concrete NODATA outcome for foo.example.org.
against zoneS2 with authority configured. -/
theorem c1_amended_witness :
    resolveResource [zoneS2] "foo.example.org.".data =
      (⟨"foo".data, []⟩, zoneS2.serial) ∧
    handle [⟨"foo.example.org.".data, typeA, classIN⟩] resolverS2 soaFix =
      { rcode := rcodeSuccess, authoritative := soaFix.authority,
        answers := [],
        authority :=
          if soaFix.authority = true then
            [soaAnswer ⟨"foo.example.org.".data, typeA, classIN⟩ soaFix 7]
          else [] } :=
  ⟨c1_amended.1 [zoneS2] "foo.example.org.".data zoneS2 "foo".data
      (by decide) (by decide),
   c1_amended.2 resolverS2 soaFix ⟨"foo.example.org.".data, typeA, classIN⟩
      7 "foo".data (by decide) (by decide) (by decide) (by decide)
      (by decide)⟩

/-! Claim C6: zone transfer ordering and AXFR framing. -/

theorem count_one_of_nodup (a : Name) :
    ∀ (l : List Name), l.Nodup → a ∈ l → l.count a = 1 := by
  intro l
  induction l with
  | nil => intro _ h; simp at h
  | cons x xs ih =>
      intro hnd hmem
      rw [List.nodup_cons] at hnd
      cases List.mem_cons.mp hmem with
      | inl h =>
          subst h
          rw [List.count_cons]
          rw [List.count_eq_zero.mpr hnd.1]
          simp
      | inr h =>
          have hne : ¬(a = x) := fun he => hnd.1 (he ▸ h)
          rw [List.count_cons]
          rw [ih hnd.2 h]
          simp [Ne.symm hne]

theorem count_filter_concrete (n : Name) (hna : n ≠ apexName)
    (hnw : n ≠ wildcardName) :
    ∀ m : NodeMap,
      (((m.filter fun p => p.1 ≠ apexName ∧ p.1 ≠ wildcardName).map
          Prod.fst).count n) = ((m.map Prod.fst).count n) := by
  intro m
  induction m with
  | nil => rfl
  | cons p rest ih =>
      obtain ⟨k, v⟩ := p
      by_cases hk : k = n
      · subst hk
        have hcond : (k ≠ apexName ∧ k ≠ wildcardName) := ⟨hna, hnw⟩
        rw [List.filter_cons]
        rw [if_pos (by simpa using hcond)]
        simp only [List.map_cons, List.count_cons]
        rw [ih]
      · rw [List.filter_cons]
        by_cases hcond : (k ≠ apexName ∧ k ≠ wildcardName)
        · rw [if_pos (by simpa using hcond)]
          simp only [List.map_cons, List.count_cons]
          rw [ih]
        · rw [if_neg (by simpa using hcond)]
          simp only [List.map_cons, List.count_cons]
          rw [ih]
          have : ¬(k == n) := by simpa using hk
          simp [this]

/-- C6 counterexample: for the S5 zone (@, www, *) the authoritative AXFR
answer list contains the primary NS record right after the leading SOA, so
it is not the five-element sequence SOA, apex, www, wildcard, SOA that the
claim states. -/
theorem c6_counterexample :
    (handle [⟨"example.org.".data, typeAXFR, classIN⟩] resolverS5
        soaFix).answers =
      [soaAnswer ⟨"example.org.".data, typeAXFR, classIN⟩ soaFix 7,
       RR.ns "example.org.".data 3600 "ns.example.org.".data,
       RR.a "example.org.".data 1 [93, 184, 216, 34],
       RR.a "www.example.org.".data 5 [1, 2, 3, 4],
       RR.txt "*.example.org.".data 5 [['h', 'i']],
       soaAnswer ⟨"example.org.".data, typeAXFR, classIN⟩ soaFix 7] ∧
    (handle [⟨"example.org.".data, typeAXFR, classIN⟩] resolverS5
        soaFix).answers ≠
      [soaAnswer ⟨"example.org.".data, typeAXFR, classIN⟩ soaFix 7,
       RR.a "example.org.".data 1 [93, 184, 216, 34],
       RR.a "www.example.org.".data 5 [1, 2, 3, 4],
       RR.txt "*.example.org.".data 5 [['h', 'i']],
       soaAnswer ⟨"example.org.".data, typeAXFR, classIN⟩ soaFix 7] := by
  decide

/-- C6 amended: Zone.transfer puts the apex first when present, every
concrete node as often as it occurs in the node map (exactly once for the
unique keys of a Go map), and the wildcard last when present; the
authoritative AXFR reply is SOA, primary NS, the per-node answers in
transfer order, and the closing SOA, with the authoritative flag set. -/
theorem c6_transfer_axfr :
    (∀ (z : Zone) (rs : Records),
        lookupNode z.nodes apexName = some rs →
        (z.transfer).head? = some ⟨apexName, rs⟩) ∧
    (∀ (z : Zone) (rs : Records),
        lookupNode z.nodes wildcardName = some rs →
        (z.transfer).getLast? = some ⟨wildcardName, rs⟩) ∧
    (∀ (z : Zone) (n : Name), n ≠ apexName → n ≠ wildcardName →
        ((z.transfer).map DnsNode.name).count n =
          ((z.nodes.map Prod.fst).count n)) ∧
    (∀ (z : Zone) (n : Name) (rs : Records),
        (z.nodes.map Prod.fst).Nodup → n ≠ apexName → n ≠ wildcardName →
        (n, rs) ∈ z.nodes →
        ((z.transfer).map DnsNode.name).count n = 1) ∧
    (∀ (q : Question) (rv : Resolver) (soa : SOA) (nodes : List DnsNode)
        (ser : Nat),
        q.qclass = classIN → transferReq q.qtype = true →
        soa.authority = true →
        rv.transferZone (lowerName q.qname) = (some nodes, ser) →
        handle [q] rv soa =
          { rcode := rcodeSuccess, authoritative := true,
            answers :=
              ([soaAnswer q soa ser] ++ [RR.ns q.qname soa.ttl soa.ns]) ++
                nodes.flatMap (nodeAnswers q true) ++ [soaAnswer q soa ser],
            authority := [] }) := by
  have hcount : ∀ (z : Zone) (n : Name), n ≠ apexName → n ≠ wildcardName →
      ((z.transfer).map DnsNode.name).count n =
        ((z.nodes.map Prod.fst).count n) := by
    intro z n hna hnw
    simp only [Zone.transfer, List.map_append, List.count_append]
    have h1 : ∀ o : Option Records,
        (((match o with
            | some rs => [(⟨apexName, rs⟩ : DnsNode)]
            | none => []).map DnsNode.name).count n) = 0 := by
      intro o
      cases o with
      | none => rfl
      | some rs => simp [List.count_cons, hna]
    have h2 : ∀ o : Option Records,
        (((match o with
            | some rs => [(⟨wildcardName, rs⟩ : DnsNode)]
            | none => []).map DnsNode.name).count n) = 0 := by
      intro o
      cases o with
      | none => rfl
      | some rs => simp [List.count_cons, hnw]
    rw [h1, h2]
    have h3 : ((z.nodes.filter fun p => p.1 ≠ apexName ∧ p.1 ≠ wildcardName).map
        (fun p => (⟨p.1, p.2⟩ : DnsNode))).map DnsNode.name =
        (z.nodes.filter fun p => p.1 ≠ apexName ∧ p.1 ≠ wildcardName).map
          Prod.fst := by
      rw [List.map_map]
      rfl
    rw [h3, count_filter_concrete n hna hnw z.nodes]
    omega
  refine ⟨?_, ?_, hcount, ?_, ?_⟩
  · intro z rs h
    simp [Zone.transfer, h]
  · intro z rs h
    simp only [Zone.transfer, h]
    rw [List.getLast?_concat]
  · intro z n rs hnd hna hnw hmem
    rw [hcount z n hna hnw]
    exact count_one_of_nodup n (z.nodes.map Prod.fst) hnd
      (List.mem_map_of_mem Prod.fst hmem)
  · intro q rv soa nodes ser hclass htr hauth htz
    exact handle_transfer_found q rv soa nodes ser hclass htr hauth htz

/-- C6 amended witness: for the S5 zone the transfer puts the apex first,
www exactly once in the middle and the wildcard last, and the AXFR reply
is framed SOA, NS, node answers, SOA. -/
theorem c6_transfer_axfr_witness :
    (zoneS5.transfer).head? =
      some ⟨apexName, [Record.A [93, 184, 216, 34] 1]⟩ ∧
    (zoneS5.transfer).getLast? =
      some ⟨wildcardName, [Record.TXT [['h', 'i']] 5]⟩ ∧
    ((zoneS5.transfer).map DnsNode.name).count "www".data = 1 ∧
    handle [⟨"example.org.".data, typeAXFR, classIN⟩] resolverS5 soaFix =
      { rcode := rcodeSuccess, authoritative := true,
        answers :=
          ([soaAnswer ⟨"example.org.".data, typeAXFR, classIN⟩ soaFix 7] ++
            [RR.ns "example.org.".data soaFix.ttl soaFix.ns]) ++
            (zoneS5.transfer).flatMap
              (nodeAnswers ⟨"example.org.".data, typeAXFR, classIN⟩ true) ++
            [soaAnswer ⟨"example.org.".data, typeAXFR, classIN⟩ soaFix 7],
        authority := [] } :=
  ⟨c6_transfer_axfr.1 zoneS5 [Record.A [93, 184, 216, 34] 1] (by decide),
   c6_transfer_axfr.2.1 zoneS5 [Record.TXT [['h', 'i']] 5] (by decide),
   c6_transfer_axfr.2.2.2.1 zoneS5 "www".data
      [Record.A [1, 2, 3, 4] 5] (by decide) (by decide) (by decide)
      (by decide),
   c6_transfer_axfr.2.2.2.2 ⟨"example.org.".data, typeAXFR, classIN⟩
      resolverS5 soaFix zoneS5.transfer 7 (by decide) (by decide)
      (by decide) (by decide)⟩

/-! Claim C9: question-name case-insensitivity. -/

theorem toNat_ofNat_valid (n : Nat) (h : n.isValidChar) :
    (Char.ofNat n).toNat = n := by
  rw [Char.ofNat, dif_pos h]
  rfl

theorem toLower_idem (c : Char) : c.toLower.toLower = c.toLower := by
  simp only [Char.toLower]
  by_cases h : c.toNat ≥ 65 ∧ c.toNat ≤ 90
  · rw [if_pos h]
    have hv : (c.toNat + 32).isValidChar := Or.inl (by omega)
    have ht : (Char.ofNat (c.toNat + 32)).toNat = c.toNat + 32 :=
      toNat_ofNat_valid _ hv
    rw [ht]
    rw [if_neg (by omega)]
  · rw [if_neg h, if_neg h]

theorem lowerName_idem (n : Name) : lowerName (lowerName n) = lowerName n := by
  simp only [lowerName, List.map_map]
  apply List.map_congr_left
  intro c _
  exact toLower_idem c

theorem lowerName_cons (c : Char) (n : Name) :
    lowerName (c :: n) = c.toLower :: lowerName n := rfl

theorem lowerName_append (a b : Name) :
    lowerName (a ++ b) = lowerName a ++ lowerName b := by
  simp [lowerName]

theorem ownerName_lower (w : Name) (b : Bool) (m : Name) :
    lowerName (ownerName w b m) = lowerName (ownerName (lowerName w) b m) := by
  unfold ownerName
  by_cases h1 : m = apexName
  · rw [if_pos h1, if_pos h1, lowerName_idem]
  · rw [if_neg h1, if_neg h1]
    by_cases h2 : m = wildcardName
    · rw [if_pos h2, if_pos h2]
      rw [lowerName_cons, lowerName_cons, lowerName_cons, lowerName_cons,
        lowerName_idem]
    · rw [if_neg h2, if_neg h2]
      cases b with
      | true =>
          simp only [if_true]
          rw [lowerName_append, lowerName_append, lowerName_cons,
            lowerName_cons, lowerName_idem]
      | false =>
          simp only [Bool.false_eq_true, if_false]
          rw [lowerName_idem]

theorem recordAnswers_lower (qt : Nat) (o1 o2 : Name)
    (h : lowerName o1 = lowerName o2) (r : Record) :
    (recordAnswers qt o1 r).map lowerRR =
      (recordAnswers qt o2 r).map lowerRR := by
  cases r with
  | A v ttl =>
      simp only [recordAnswers, apply_ite (List.map lowerRR), List.map_cons,
        List.map_nil, lowerRR, h]
  | NS v ttl =>
      simp only [recordAnswers, apply_ite (List.map lowerRR), List.map_cons,
        List.map_nil, lowerRR, h]
  | TXT vs ttl =>
      simp only [recordAnswers, apply_ite (List.map lowerRR), List.map_cons,
        List.map_nil, lowerRR, h]
  | AAAA v ttl =>
      simp only [recordAnswers, apply_ite (List.map lowerRR), List.map_cons,
        List.map_nil, lowerRR, h]

theorem flatMap_map_congr (l : List Record) (f g : Record → List RR)
    (h : ∀ a ∈ l, (f a).map lowerRR = (g a).map lowerRR) :
    (l.flatMap f).map lowerRR = (l.flatMap g).map lowerRR := by
  induction l with
  | nil => rfl
  | cons x xs ih =>
      simp only [List.flatMap_cons, List.map_append]
      rw [h x (List.mem_cons_self _ _),
        ih fun a ha => h a (List.mem_cons_of_mem _ ha)]

theorem nodeAnswers_lower (w : Name) (qt qc : Nat) (b : Bool)
    (node : DnsNode) :
    (nodeAnswers ⟨w, qt, qc⟩ b node).map lowerRR =
      (nodeAnswers ⟨lowerName w, qt, qc⟩ b node).map lowerRR := by
  simp only [nodeAnswers]
  exact flatMap_map_congr node.records _ _ fun r _ =>
    recordAnswers_lower qt _ _ (ownerName_lower w b node.name) r

theorem nodesAnswers_lower (w : Name) (qt qc : Nat) (b : Bool)
    (nodes : List DnsNode) :
    (nodes.flatMap (nodeAnswers ⟨w, qt, qc⟩ b)).map lowerRR =
      (nodes.flatMap (nodeAnswers ⟨lowerName w, qt, qc⟩ b)).map lowerRR := by
  induction nodes with
  | nil => rfl
  | cons x xs ih =>
      simp only [List.flatMap_cons, List.map_append]
      rw [nodeAnswers_lower w qt qc b x, ih]

theorem lowerRR_soaAnswer (w : Name) (qt qc : Nat) (soa : SOA) (ser : Nat) :
    lowerRR (soaAnswer ⟨w, qt, qc⟩ soa ser) =
      lowerRR (soaAnswer ⟨lowerName w, qt, qc⟩ soa ser) := by
  simp [soaAnswer, lowerRR, lowerName_idem]

theorem isEmpty_eq_of_length_eq (l1 l2 : List RR)
    (h : l1.length = l2.length) : l1.isEmpty = l2.isEmpty := by
  cases l1 with
  | nil => cases l2 with
    | nil => rfl
    | cons x xs => simp at h
  | cons x xs => cases l2 with
    | nil => simp at h
    | cons y ys => rfl

/-- C9: a question name differing only in letter case yields the same
reply as the all-lowercase question, up to the case of the owner names the
reply echoes back (DNS names compare case-insensitively): the responder
lowercases the name before resolving, so the resolver is consulted
identically. -/
theorem c9_case_insensitive :
    ∀ (rv : Resolver) (soa : SOA) (w : Name) (qt qc : Nat),
      lowerReply (handle [⟨w, qt, qc⟩] rv soa) =
        lowerReply (handle [⟨lowerName w, qt, qc⟩] rv soa) := by
  intro rv soa w qt qc
  by_cases hqc : qc = classIN
  case neg =>
      simp only [handle]
      rw [if_pos (by simpa using hqc), if_pos (by simpa using hqc)]
  case pos =>
      subst hqc
      by_cases htr : transferReq qt = true
      · by_cases hauth : soa.authority = true
        · rcases htz : rv.transferZone (lowerName w) with ⟨x, ser⟩
          have htz2 : rv.transferZone (lowerName (lowerName w)) = (x, ser) := by
            rw [lowerName_idem]
            exact htz
          cases x with
          | some nodes =>
              rw [handle_transfer_found ⟨w, qt, classIN⟩ rv soa nodes ser rfl
                    htr hauth htz,
                  handle_transfer_found ⟨lowerName w, qt, classIN⟩ rv soa
                    nodes ser rfl htr hauth htz2]
              simp only [lowerReply, Reply.mk.injEq, List.map_append,
                List.map_cons, List.map_nil, true_and, and_true]
              rw [nodesAnswers_lower w qt classIN true nodes]
              simp [lowerRR, soaAnswer, lowerName_idem]
          | none =>
              rw [handle_transfer_missing ⟨w, qt, classIN⟩ rv soa ser rfl
                    htr hauth htz,
                  handle_transfer_missing ⟨lowerName w, qt, classIN⟩ rv soa
                    ser rfl htr hauth htz2]
              simp [lowerReply, lowerRR, soaAnswer, lowerName_idem]
        · have hauth2 : soa.authority = false := by
            cases h : soa.authority
            · rfl
            · exact absurd h hauth
          rw [handle_transfer_noauth ⟨w, qt, classIN⟩ rv soa rfl htr hauth2,
              handle_transfer_noauth ⟨lowerName w, qt, classIN⟩ rv soa rfl
                htr hauth2]
      · have htr2 : transferReq qt = false := by
          cases h : transferReq qt
          · rfl
          · exact absurd h htr
        rcases hres : rv.resolveRecords (lowerName w) qt with ⟨n, rs, ser⟩
        have hres2 : rv.resolveRecords (lowerName (lowerName w)) qt =
            (n, rs, ser) := by
          rw [lowerName_idem]
          exact hres
        by_cases hn : n = []
        · subst hn
          rw [handle_resolve_missing ⟨w, qt, classIN⟩ rv soa rs ser rfl
                htr2 hres,
              handle_resolve_missing ⟨lowerName w, qt, classIN⟩ rv soa rs
                ser rfl htr2 hres2]
          by_cases hsa : soa.authority = true
          · simp [lowerReply, hsa, lowerRR, soaAnswer, lowerName_idem]
          · simp [lowerReply, hsa]
        · rw [handle_resolve_found ⟨w, qt, classIN⟩ rv soa n rs ser rfl
                htr2 hres hn,
              handle_resolve_found ⟨lowerName w, qt, classIN⟩ rv soa n rs
                ser rfl htr2 hres2 hn]
          dsimp only
          have hA :
              ((if n = apexName ∧ soa.authority = true then
                  (if replyType qt typeSOA = true then
                    [soaAnswer ⟨w, qt, classIN⟩ soa ser] else []) ++
                  (if replyType qt typeNS = true then
                    [RR.ns w soa.ttl soa.ns] else [])
                else []) ++
                nodeAnswers ⟨w, qt, classIN⟩ (decide (n = apexName))
                  ⟨n, rs⟩).map lowerRR =
              ((if n = apexName ∧ soa.authority = true then
                  (if replyType qt typeSOA = true then
                    [soaAnswer ⟨lowerName w, qt, classIN⟩ soa ser] else []) ++
                  (if replyType qt typeNS = true then
                    [RR.ns (lowerName w) soa.ttl soa.ns] else [])
                else []) ++
                nodeAnswers ⟨lowerName w, qt, classIN⟩ (decide (n = apexName))
                  ⟨n, rs⟩).map lowerRR := by
            simp only [List.map_append]
            rw [nodeAnswers_lower w qt classIN (decide (n = apexName)) ⟨n, rs⟩]
            by_cases hap : n = apexName ∧ soa.authority = true
            · by_cases hrtS : replyType qt typeSOA = true
              · by_cases hrtN : replyType qt typeNS = true
                · simp [hap, hrtS, hrtN, lowerRR, soaAnswer, lowerName_idem]
                · simp [hap, hrtS, hrtN, lowerRR, soaAnswer, lowerName_idem]
              · by_cases hrtN : replyType qt typeNS = true
                · simp [hap, hrtS, hrtN, lowerRR, soaAnswer, lowerName_idem]
                · simp [hap, hrtS, hrtN]
            · simp [hap]
          simp only [lowerReply, Reply.mk.injEq, true_and, and_true]
          refine ⟨hA, ?_⟩
          have hlen := congrArg List.length hA
          simp only [List.length_map] at hlen
          have hemp := isEmpty_eq_of_length_eq _ _ hlen
          rw [hemp]
          by_cases hC :
              ((if n = apexName ∧ soa.authority = true then
                  (if replyType qt typeSOA = true then
                    [soaAnswer ⟨lowerName w, qt, classIN⟩ soa ser] else []) ++
                  (if replyType qt typeNS = true then
                    [RR.ns (lowerName w) soa.ttl soa.ns] else [])
                else []) ++
                nodeAnswers ⟨lowerName w, qt, classIN⟩ (decide (n = apexName))
                  ⟨n, rs⟩).isEmpty = true ∧ soa.authority = true
          · rw [if_pos hC, if_pos hC]
            simp [lowerRR, soaAnswer, lowerName_idem]
          · rw [if_neg hC, if_neg hC]

end AcmeDns
